import Mathlib

/-!
# Table allocator server: pool bitmaps and lease handling

Shallow embedding of `table_allocator/server/src/table_allocator_server_clients.c`.

* `uint32_t` values are natural numbers below `2^32`; the wrapping subtraction
  `rt_table - ctx->table_offset` and the wrapping `+=` are written with an
  explicit `% 4294967296`.
* A bitmap pointer is `Option (List Nat)`: `none` is the `NULL` pointer, the list
  holds the `uint32_t` words.
* A function that dereferences `NULL` or indexes a bitmap outside its list has
  undefined behaviour in C; here it returns `none`.
* `1 << b` for `b ≤ 31` is the word `2^b` (for `b = 31` the `int` value is
  converted to the `uint32_t` word `0x80000000` by the `^=`).
* The durable store (`table_allocator_server_sqlite.c`) is not part of the
  translated file; it is modelled after the specification of the lease store.
-/

namespace TableAllocator

/-! ## Constants and data -/

/-- Address family `AF_UNSPEC`. -/
def AF_UNSPEC : Nat := 0

/-- Address family `AF_INET`. -/
def AF_INET : Nat := 2

/-- Address family `AF_INET6`. -/
def AF_INET6 : Nat := 10

/-- Number of values of a `uint32_t`. -/
def U32 : Nat := 4294967296

/-- Client request (`struct tas_client_req`): the lease key. -/
structure tas_client_req where
  addr_family : Nat
  address : String
  ifname : String
  tag : String
deriving DecidableEq

/-- Modelled from the spec: one row of the lease store (the store's table layout,
`table_allocator_server_sqlite.c`, is missing). Key = (address family, address,
interface name, tag); value = table id and absolute expiry. -/
structure lease where
  addr_family : Nat
  address : String
  ifname : String
  tag : String
  rt_table : Nat
  lease_expires : Nat
deriving DecidableEq

/-- Server context (`struct tas_ctx`): the three bitmaps, the pool
configuration and the handle of the durable store. -/
structure tas_ctx where
  tables_inet : Option (List Nat)
  tables_inet6 : Option (List Nat)
  tables_unspec : Option (List Nat)
  num_table_elements : Nat
  num_tables : Nat
  table_offset : Nat
  table_timeout : Nat
  db_handle : List lease
deriving DecidableEq

/-- Result of `ffs` scanning upwards: `fuel` bits left to look at, `pos` bits
already skipped. -/
def ffs_from : Nat → Nat → Nat → Nat
  | 0, _, _ => 0
  | fuel + 1, pos, w => if w % 2 = 1 then pos + 1 else ffs_from fuel (pos + 1) (w / 2)

/-- The libc function `ffs` on a 32-bit value: one plus the index of the least
significant set bit, `0` when no bit is set. -/
def ffs (w : Nat) : Nat := ffs_from 32 0 w

/-- The `if (addr_family == AF_INET) … else if (addr_family == AF_INET6) … else …`
chain that picks the bitmap of a family. -/
def family_tables (ctx : tas_ctx) (addr_family : Nat) : Option (List Nat) :=
  if addr_family = AF_INET then ctx.tables_inet
  else if addr_family = AF_INET6 then ctx.tables_inet6
  else ctx.tables_unspec

/-- Store through the pointer picked by the family chain. -/
def set_family_tables (ctx : tas_ctx) (addr_family : Nat) (t : List Nat) : tas_ctx :=
  if addr_family = AF_INET then { ctx with tables_inet := some t }
  else if addr_family = AF_INET6 then { ctx with tables_inet6 := some t }
  else { ctx with tables_unspec := some t }

/-- The statement `tables[element_index] ^= (1 << element_bit)` on the bitmap of
`addr_family`; `none` when the pointer is `NULL` or the index is outside the
array. -/
def toggle_bit (ctx : tas_ctx) (addr_family element_index element_bit : Nat) :
    Option tas_ctx :=
  match family_tables ctx addr_family with
  | none => none
  | some t =>
    match t[element_index]? with
    | none => none
    | some w =>
      some (set_family_tables ctx addr_family (t.set element_index (w ^^^ (1 <<< element_bit))))

/-! ## Pool operations -/

/-- The `for` loop of `allocate_table`: `fuel` iterations left, `i` the loop
variable. Returns the value of `rt_table` after the loop and the bitmap. -/
def allocate_loop : Nat → Nat → List Nat → Option (Nat × List Nat)
  | 0, _, rt_tables => some (0, rt_tables)
  | fuel + 1, i, rt_tables =>
    match rt_tables[i]? with
    | none => none
    | some w =>
      if w = 0 then allocate_loop fuel (i + 1) rt_tables
      else
        let rt_table := ffs w
        some ((rt_table + i * 32) % U32, rt_tables.set i (w ^^^ (1 <<< (rt_table - 1))))

/-- Function `allocate_table`: the 1-based index of the taken bit, `0` on failure, and
the context after the call. -/
def allocate_table (ctx : tas_ctx) (addr_family : Nat) : Option (Nat × tas_ctx) :=
  -- with no elements the loop body never runs and no pointer is dereferenced
  if ctx.num_table_elements = 0 then some (0, ctx)
  else
    match family_tables ctx addr_family with
    | none => none
    | some rt_tables =>
      match allocate_loop ctx.num_table_elements 0 rt_tables with
      | none => none
      | some (rt_table, rt_tables') =>
        let ctx' := set_family_tables ctx addr_family rt_tables'
        if rt_table > ctx.num_tables then some (0, ctx') else some (rt_table, ctx')

/-- Function `release_table`: flips the bit of the id, with no check of the
word index. -/
def release_table (ctx : tas_ctx) (addr_family rt_table : Nat) : Option tas_ctx :=
  let rt_table := (rt_table + U32 - ctx.table_offset) % U32
  let element_index := rt_table >>> 5
  let element_bit := rt_table &&& 0x1F
  toggle_bit ctx addr_family element_index element_bit

/-- Function `set_table`: flips the bit of the id when its word lies inside the
bitmap. -/
def set_table (ctx : tas_ctx) (addr_family rt_table : Nat) : Option tas_ctx :=
  let rt_table := (rt_table + U32 - ctx.table_offset) % U32
  let element_index := rt_table >>> 5
  let element_bit := rt_table &&& 0x1F
  if element_index ≥ ctx.num_table_elements then some ctx
  else toggle_bit ctx addr_family element_index element_bit

/-- Function `is_table_free`: `1` when the bit of the id is set, `0` otherwise. -/
def is_table_free (ctx : tas_ctx) (addr_family rt_table : Nat) : Option Nat :=
  let rt_table := (rt_table + U32 - ctx.table_offset) % U32
  let element_index := rt_table >>> 5
  let element_bit := rt_table &&& 0x1F
  if element_index ≥ ctx.num_table_elements then some 0
  else
    let element_mask := 1 <<< element_bit
    match family_tables ctx addr_family with
    | none => none
    | some t =>
      match t[element_index]? with
      | none => none
      | some w => some (if w &&& element_mask = 0 then 0 else 1)

/-- Function `release_dead_lease`, the callback of the reaper. -/
def release_dead_lease (ctx : tas_ctx) (addr_family rt_table : Nat) : Option tas_ctx :=
  match is_table_free ctx addr_family rt_table with
  | none => none
  | some free =>
    if free = 0 then release_table ctx addr_family rt_table else some ctx

/-! ## The durable store -/

/-- The key of a stored lease, in the shape of a request. -/
def lease.key (l : lease) : tas_client_req :=
  { addr_family := l.addr_family, address := l.address, ifname := l.ifname, tag := l.tag }

/-- Modelled from the spec: `table_allocator_sqlite_get_table`, the store's
`Lookup(key)`. The caller tests the returned `uint32_t` for zero and otherwise
uses it as the table id, so "not found" is the value `0`. -/
def table_allocator_sqlite_get_table (ctx : tas_ctx) (req : tas_client_req) : Nat :=
  match ctx.db_handle.find? (fun l => decide (l.key = req)) with
  | some l => l.rt_table
  | none => 0

/-- Modelled from the spec: `table_allocator_sqlite_insert_table`, the store's
`Upsert(key, id, expiry)` (creates or refreshes the lease of the key). `ok` is
the outcome of the durable write; a failed write leaves the store as it was. -/
def table_allocator_sqlite_insert_table (ok : Bool) (ctx : tas_ctx) (req : tas_client_req)
    (rt_table lease_sec : Nat) : Nat × tas_ctx :=
  if ok then
    (1, { ctx with
          db_handle :=
            { addr_family := req.addr_family, address := req.address, ifname := req.ifname,
              tag := req.tag, rt_table := rt_table, lease_expires := lease_sec } ::
              ctx.db_handle.filter (fun l => !decide (l.key = req)) })
  else (0, ctx)

/-- Modelled from the spec: `table_allocator_sqlite_update_lease`, the refresh
of the expiry of the lease holding `(addr_family, rt_table)`. `ok` is the
outcome of the durable write. -/
def table_allocator_sqlite_update_lease (ok : Bool) (ctx : tas_ctx)
    (rt_table addr_family lease_sec : Nat) : Nat × tas_ctx :=
  if ok then
    (1, { ctx with
          db_handle := ctx.db_handle.map (fun l =>
            if l.rt_table = rt_table ∧ l.addr_family = addr_family then
              { l with lease_expires := lease_sec }
            else l) })
  else (0, ctx)

/-- Modelled from the spec: `table_allocator_sqlite_remove_table`, the store's
`Delete(key)`. `ok` is the outcome of the durable delete. -/
def table_allocator_sqlite_remove_table (ok : Bool) (ctx : tas_ctx) (req : tas_client_req) :
    Nat × tas_ctx :=
  if ok then
    (1, { ctx with db_handle := ctx.db_handle.filter (fun l => !decide (l.key = req)) })
  else (0, ctx)

/-- Calls `cb` once for each lease of the list, in order. -/
def for_each_lease (cb : tas_ctx → Nat → Nat → Option tas_ctx) :
    List lease → tas_ctx → Option tas_ctx
  | [], ctx => some ctx
  | l :: ls, ctx =>
    match cb ctx l.addr_family l.rt_table with
    | none => none
    | some ctx' => for_each_lease cb ls ctx'

/-- Modelled from the spec: `table_allocator_sqlite_delete_dead_leases`, the
store's `ForEachExpired(now, fn)`: removes the leases whose expiry is at most
`now` and invokes the callback once per removed lease. -/
def table_allocator_sqlite_delete_dead_leases (ctx : tas_ctx) (now : Nat)
    (cb : tas_ctx → Nat → Nat → Option tas_ctx) : Option tas_ctx :=
  for_each_lease cb (ctx.db_handle.filter (fun l => decide (l.lease_expires ≤ now)))
    { ctx with db_handle := ctx.db_handle.filter (fun l => !decide (l.lease_expires ≤ now)) }

/-! ## Request handlers -/

/-- Function `table_allocator_server_clients_delete_dead_leases`; `clock` is the result
of `clock_gettime` (`none` when it fails, else `tv_sec`). -/
def table_allocator_server_clients_delete_dead_leases (clock : Option Nat) (ctx : tas_ctx) :
    Option tas_ctx :=
  match clock with
  | none => some ctx
  | some tv_sec => table_allocator_sqlite_delete_dead_leases ctx tv_sec release_dead_lease

/-- The `switch (req->addr_family)` at the head of the request handler: `true`
when the family is one of the three known ones and its bitmap is not `NULL`. -/
def family_configured (ctx : tas_ctx) (addr_family : Nat) : Bool :=
  if addr_family = AF_INET then ctx.tables_inet.isSome
  else if addr_family = AF_INET6 then ctx.tables_inet6.isSome
  else if addr_family = AF_UNSPEC then ctx.tables_unspec.isSome
  else false

/-- What a call of the request handler leaves behind: the returned `0`/`1`, the
context, and the values behind the two output pointers. -/
structure req_result where
  ret : Nat
  ctx : tas_ctx
  rt_table : Nat
  lease_sec : Nat
deriving DecidableEq

/-- Function `table_allocator_server_clients_handle_req`. `clock` is the result of
`clock_gettime`, `db_ok` the outcome of the durable write of this call,
`rt_table` and `lease_sec_ptr` the values behind the output pointers before the
call. `lease_sec` is a `time_t`; the store through the `uint32_t` pointer
truncates it. -/
def table_allocator_server_clients_handle_req (clock : Option Nat) (db_ok : Bool)
    (ctx : tas_ctx) (req : tas_client_req) (rt_table lease_sec_ptr : Nat) :
    Option req_result :=
  if family_configured ctx req.addr_family = false then
    some ⟨0, ctx, rt_table, lease_sec_ptr⟩
  else
    match clock with
    | none => some ⟨0, ctx, rt_table, lease_sec_ptr⟩
    | some tv_sec =>
      let lease_sec := tv_sec + ctx.table_timeout
      let rt_table_returned := table_allocator_sqlite_get_table ctx req
      if rt_table_returned ≠ 0 then
        match is_table_free ctx req.addr_family rt_table_returned with
        | none => none
        | some free =>
          match (if free ≠ 0 then set_table ctx req.addr_family rt_table_returned
                 else some ctx) with
          | none => none
          | some ctx1 =>
            let upd := table_allocator_sqlite_update_lease db_ok ctx1 rt_table_returned
              req.addr_family lease_sec
            if upd.1 = 0 then some ⟨0, upd.2, rt_table, lease_sec_ptr⟩
            else some ⟨1, upd.2, rt_table_returned, lease_sec % U32⟩
      else
        match allocate_table ctx req.addr_family with
        | none => none
        | some (allocated, ctx1) =>
          if allocated = 0 then some ⟨0, ctx1, rt_table, lease_sec_ptr⟩
          else
            let rt_table_returned := (ctx1.table_offset + (allocated - 1)) % U32
            let ins := table_allocator_sqlite_insert_table db_ok ctx1 req rt_table_returned
              lease_sec
            if ins.1 = 0 then
              match release_table ins.2 req.addr_family rt_table_returned with
              | none => none
              | some ctx3 => some ⟨0, ctx3, rt_table, lease_sec_ptr⟩
            else some ⟨1, ins.2, rt_table_returned, lease_sec % U32⟩

/-- Function `table_allocator_server_clients_handle_release`; `db_ok` is the outcome of
the durable delete. Returns the `0`/`1` result and the context. -/
def table_allocator_server_clients_handle_release (db_ok : Bool) (ctx : tas_ctx)
    (req : tas_client_req) : Option (Nat × tas_ctx) :=
  let rt_table := table_allocator_sqlite_get_table ctx req
  if rt_table = 0 then some (1, ctx)
  else
    let rem := table_allocator_sqlite_remove_table db_ok ctx req
    if rem.1 ≠ 0 then
      match release_table rem.2 req.addr_family rt_table with
      | none => none
      | some ctx' => some (1, ctx')
    else some (0, rem.2)

/-- Function `table_allocator_server_clients_set_table`: the logged wrapper of
`set_table`. -/
def table_allocator_server_clients_set_table (ctx : tas_ctx) (addr_family rt_table : Nat) :
    Option tas_ctx :=
  set_table ctx addr_family rt_table

/-- The functions of the durable store that a handler calls. -/
inductive store_call where
  | get_table
  | update_lease
  | insert_table
deriving DecidableEq

/-- The calls of `table_allocator_server_clients_handle_req` into the durable
store, in order, read off the control flow of the function: none before the
family `switch` and the clock read have passed, then the lookup, then the lease
update on the renewal path or the insert after a successful `allocate_table`. -/
def handle_req_store_calls (clock : Option Nat) (ctx : tas_ctx) (req : tas_client_req) :
    List store_call :=
  if family_configured ctx req.addr_family = false then []
  else
    match clock with
    | none => []
    | some _ =>
      if table_allocator_sqlite_get_table ctx req ≠ 0 then
        [store_call.get_table, store_call.update_lease]
      else
        match allocate_table ctx req.addr_family with
        | none => [store_call.get_table]
        | some (allocated, _) =>
          if allocated = 0 then [store_call.get_table]
          else [store_call.get_table, store_call.insert_table]

/-! ## Well-formed contexts, the fresh pool, runs of the server -/

/-- A bitmap pointer is either `NULL` or points to `n` words of 32 bits. -/
def tables_ok (n : Nat) : Option (List Nat) → Bool
  | none => true
  | some t => t.length == n && t.all (fun w => decide (w < U32))

/-- The C types of the context: every bitmap that is present has
`num_table_elements` 32-bit words, `table_offset` and `num_tables` are
`uint32_t`, and the bit positions of a bitmap fit the 32-bit `rt_table` that
`allocate_table` returns. -/
def tas_ctx.wf (ctx : tas_ctx) : Prop :=
  tables_ok ctx.num_table_elements ctx.tables_inet = true ∧
  tables_ok ctx.num_table_elements ctx.tables_inet6 = true ∧
  tables_ok ctx.num_table_elements ctx.tables_unspec = true ∧
  ctx.table_offset < U32 ∧
  ctx.num_tables < U32 ∧
  32 * ctx.num_table_elements ≤ U32

instance (ctx : tas_ctx) : Decidable ctx.wf := by
  unfold tas_ctx.wf; infer_instance

/-- Which of the three bitmaps the family chain picks: `0` for `AF_INET`, `1`
for `AF_INET6`, `2` for every other value. -/
def family_slot (addr_family : Nat) : Nat :=
  if addr_family = AF_INET then 0 else if addr_family = AF_INET6 then 1 else 2

/-- Modelled from the spec: the pool at start-up (the allocation of the bitmaps,
`table_allocator_server.c`, is missing): every configured family has a bitmap of
`num_table_elements` words with all bits set, the store is empty. -/
def fresh_ctx (inet inet6 unspec : Bool)
    (num_table_elements num_tables table_offset table_timeout : Nat) : tas_ctx :=
  { tables_inet := if inet then some (List.replicate num_table_elements 0xFFFFFFFF) else none
    tables_inet6 := if inet6 then some (List.replicate num_table_elements 0xFFFFFFFF) else none
    tables_unspec := if unspec then some (List.replicate num_table_elements 0xFFFFFFFF) else none
    num_table_elements := num_table_elements
    num_tables := num_tables
    table_offset := table_offset
    table_timeout := table_timeout
    db_handle := [] }

/-- Modelled from the spec: one event of the single-threaded dispatch loop (the
loop itself, `table_allocator_server.c`, is missing), with the outcomes of the
clock read and of the durable write that the event meets. -/
inductive server_event where
  | request (req : tas_client_req) (clock : Option Nat) (db_ok : Bool)
  | release (req : tas_client_req) (db_ok : Bool)
  | reap (clock : Option Nat)
deriving DecidableEq

/-- The context after one event. -/
def server_step (ctx : tas_ctx) : server_event → Option tas_ctx
  | .request req clock db_ok =>
    (table_allocator_server_clients_handle_req clock db_ok ctx req 0 0).map (fun r => r.ctx)
  | .release req db_ok =>
    (table_allocator_server_clients_handle_release db_ok ctx req).map (fun r => r.2)
  | .reap clock => table_allocator_server_clients_delete_dead_leases clock ctx

/-- The context after a sequence of events. -/
def server_run : tas_ctx → List server_event → Option tas_ctx
  | ctx, [] => some ctx
  | ctx, e :: es =>
    match server_step ctx e with
    | none => none
    | some ctx' => server_run ctx' es

/-- Modelled from the spec: start-up recovery (the caller is missing), one
`table_allocator_server_clients_set_table` for each lease read from the store. -/
def recover_tables (ctx : tas_ctx) (leases : List lease) : Option tas_ctx :=
  for_each_lease table_allocator_server_clients_set_table leases ctx

/-! ## Bit-level view of a bitmap -/

/-- Position of a table id in the bitmap: the wrapping `rt_table - ctx->table_offset`. -/
def table_index (ctx : tas_ctx) (rt_table : Nat) : Nat :=
  (rt_table + U32 - ctx.table_offset) % U32

/-- Bit `j` of a bitmap: bit `j % 32` of word `j / 32`; `false` past the last word. -/
def bit_at (t : List Nat) (j : Nat) : Bool :=
  match t[j / 32]? with
  | some w => w.testBit (j % 32)
  | none => false

/-- The bitmap with bit `j` flipped; unchanged when `j` is past the last word. -/
def toggle_at (t : List Nat) (j : Nat) : List Nat :=
  match t[j / 32]? with
  | some w => t.set (j / 32) (w ^^^ (1 <<< (j % 32)))
  | none => t

/-! ## The invariant of the server loop -/

/-- The lease holds its id in the pool: its family is configured, its id is a
32-bit value whose bit lies inside the bitmap, and that bit is busy. -/
def lease_held (ctx : tas_ctx) (l : lease) : Prop :=
  family_configured ctx l.addr_family = true ∧ l.rt_table < U32 ∧
  table_index ctx l.rt_table / 32 < ctx.num_table_elements ∧
  is_table_free ctx l.addr_family l.rt_table = some 0

/-- No two leases of the list with the same address family hold the same id. -/
def leases_unique (ls : List lease) : Prop :=
  ls.Pairwise (fun a b => a.addr_family = b.addr_family → a.rt_table ≠ b.rt_table)

/-- The invariant: the context is well formed, every stored lease holds its id,
and the stored leases are unique. -/
def server_inv (ctx : tas_ctx) : Prop :=
  ctx.wf ∧ (∀ l ∈ ctx.db_handle, lease_held ctx l) ∧ leases_unique ctx.db_handle

/-! ## Example contexts and keys -/

/-- The fresh pool of the ids 100..103 for `AF_INET`: one word, four ids. -/
def pool_100_103 : tas_ctx := fresh_ctx true false false 1 4 100 60

/-- Key A of the scenarios. -/
def key_A : tas_client_req := ⟨AF_INET, "10.0.0.1", "eth0", "a"⟩

/-- Key B of the scenarios. -/
def key_B : tas_client_req := ⟨AF_INET, "10.0.0.2", "eth0", "b"⟩

/-- Key C of the scenarios. -/
def key_C : tas_client_req := ⟨AF_INET, "10.0.0.3", "eth0", "c"⟩

/-- Key D of the scenarios. -/
def key_D : tas_client_req := ⟨AF_INET, "10.0.0.4", "eth0", "d"⟩

/-- Key E of the scenarios. -/
def key_E : tas_client_req := ⟨AF_INET, "10.0.0.5", "eth0", "e"⟩

/-- The lease of a key on a table id. -/
def lease_of (req : tas_client_req) (rt_table lease_expires : Nat) : lease :=
  { addr_family := req.addr_family, address := req.address, ifname := req.ifname,
    tag := req.tag, rt_table := rt_table, lease_expires := lease_expires }

/-- The pool 100..103 after the keys A, B, C, D were granted the four ids at
time 1. -/
def pool_100_103_full : tas_ctx :=
  { pool_100_103 with
    tables_inet := some [0xFFFFFFF0]
    db_handle := [lease_of key_D 103 61, lease_of key_C 102 61, lease_of key_B 101 61,
      lease_of key_A 100 61] }

/-- The pool 100..103 in which key B holds 101 and id 100 was released. -/
def pool_100_103_B : tas_ctx :=
  { pool_100_103 with
    tables_inet := some [0xFFFFFFFD]
    db_handle := [lease_of key_B 101 61] }

/-- The fresh pool of the ids 0..3 for `AF_INET`: `table_offset` is `0`. -/
def pool_0_3 : tas_ctx := fresh_ctx true false false 1 4 0 60

/-- The full pool 100..103 after key A released id 100. -/
def pool_100_103_BCD : tas_ctx :=
  { pool_100_103 with
    tables_inet := some [0xFFFFFFF1]
    db_handle := [lease_of key_D 103 61, lease_of key_C 102 61, lease_of key_B 101 61] }

/-- The pool 100..103 right after a restart: the store holds the lease of key A
on 100, the bitmap is still fresh. -/
def pool_100_103_restarted : tas_ctx :=
  { pool_100_103 with db_handle := [lease_of key_A 100 61] }

/-- The pool 100..103 in which key C holds 100 and key B holds 101. -/
def pool_100_103_CB : tas_ctx :=
  { pool_100_103 with
    tables_inet := some [0xFFFFFFFC]
    db_handle := [lease_of key_C 100 62, lease_of key_B 101 61] }

/-- The pool 100..103 started on a store that still holds a lease on table 132,
an id of an earlier, larger pool. -/
def pool_100_103_old_lease : tas_ctx :=
  { pool_100_103 with db_handle := [lease_of key_A 132 61] }

/-- The pool 100..103 in which only key B holds a lease, on 101 until second 90. -/
def pool_100_103_B90 : tas_ctx :=
  { pool_100_103 with
    tables_inet := some [0xFFFFFFFD]
    db_handle := [lease_of key_B 101 90] }

/-- The pool 0..3 after the first request of key A at second 1: key A holds a
lease on the id `0`. -/
def pool_0_3_A : tas_ctx :=
  { pool_0_3 with
    tables_inet := some [0xFFFFFFFE]
    db_handle := [lease_of key_A 0 61] }

/-! ## Word-level facts -/

theorem shr5_eq (x : Nat) : x >>> 5 = x / 32 := by
  rw [Nat.shiftRight_eq_div_pow]

theorem and31_eq (x : Nat) : x &&& 0x1F = x % 32 := by
  have h := Nat.and_pow_two_sub_one_eq_mod x 5
  simpa using h

theorem and_mask_eq_zero (w b : Nat) : w &&& (1 <<< b) = 0 ↔ w.testBit b = false := by
  rw [Nat.one_shiftLeft]
  constructor
  · intro h
    have h1 : (w &&& 2 ^ b).testBit b = false := by rw [h]; simp
    simpa [Nat.testBit_and, Nat.testBit_two_pow_self] using h1
  · intro h
    apply Nat.eq_of_testBit_eq
    intro i
    rw [Nat.testBit_and, Nat.testBit_two_pow, Nat.zero_testBit]
    by_cases hb : b = i
    · subst hb; simp [h]
    · simp [hb]

theorem testBit_toggle (w b j : Nat) :
    (w ^^^ (1 <<< b)).testBit j = if b = j then !w.testBit j else w.testBit j := by
  rw [Nat.one_shiftLeft, Nat.testBit_xor, Nat.testBit_two_pow]
  by_cases hb : b = j <;> simp [hb]

theorem toggle_lt (w b : Nat) (hw : w < U32) (hb : b < 32) : w ^^^ (1 <<< b) < U32 := by
  have h1 : (1 <<< b) < 2 ^ 32 := by
    rw [Nat.one_shiftLeft]
    exact Nat.pow_lt_pow_right (by decide) hb
  exact Nat.xor_lt_two_pow (n := 32) hw h1

theorem toggle_toggle (w b : Nat) : (w ^^^ (1 <<< b)) ^^^ (1 <<< b) = w := by
  rw [Nat.xor_assoc, Nat.xor_self, Nat.xor_zero]

/-! ## `ffs` -/

theorem ffs_from_spec : ∀ (fuel pos w : Nat), w % 2 ^ fuel ≠ 0 →
    ∃ k, k < fuel ∧ ffs_from fuel pos w = pos + k + 1 ∧ w.testBit k = true ∧
      ∀ j, j < k → w.testBit j = false
  | 0, _, w, h => by simp [Nat.mod_one] at h
  | fuel + 1, pos, w, h => by
    by_cases h2 : w % 2 = 1
    · refine ⟨0, by omega, by simp [ffs_from, h2], by simp [Nat.testBit_zero, h2], ?_⟩
      intro j hj; omega
    · have hdiv : (w / 2) % 2 ^ fuel ≠ 0 := by
        intro h0
        apply h
        have : w % 2 ^ (fuel + 1) = 2 * ((w / 2) % 2 ^ fuel) + w % 2 := by
          rw [Nat.pow_succ, Nat.mul_comm (2 ^ fuel) 2, Nat.mod_mul]
          omega
        omega
      obtain ⟨k, hk, hf, hb, hlow⟩ := ffs_from_spec fuel (pos + 1) (w / 2) hdiv
      refine ⟨k + 1, by omega, ?_, ?_, ?_⟩
      · simp only [ffs_from, h2, if_false]; omega
      · rw [Nat.testBit_succ]; exact hb
      · intro j hj
        cases j with
        | zero => simp [Nat.testBit_zero, h2]
        | succ j => rw [Nat.testBit_succ]; exact hlow j (by omega)

theorem ffs_spec (w : Nat) (h0 : w ≠ 0) (hw : w < U32) :
    ∃ k, k < 32 ∧ ffs w = k + 1 ∧ w.testBit k = true ∧ ∀ j, j < k → w.testBit j = false := by
  have h : w % 2 ^ 32 ≠ 0 := by
    rw [Nat.mod_eq_of_lt (by simpa [U32] using hw)]; exact h0
  obtain ⟨k, hk, hf, hb, hlow⟩ := ffs_from_spec 32 0 w h
  exact ⟨k, hk, by simpa [ffs] using hf, hb, hlow⟩

/-! ## The family chain -/

theorem family_tables_set (ctx : tas_ctx) (f g : Nat) (t : List Nat) :
    family_tables (set_family_tables ctx f t) g =
      if family_slot f = family_slot g then some t else family_tables ctx g := by
  simp only [family_tables, set_family_tables, family_slot, AF_INET, AF_INET6]
  by_cases hf : f = 2 <;> by_cases hf6 : f = 10 <;>
    by_cases hg : g = 2 <;> by_cases hg6 : g = 10 <;> simp_all

theorem family_tables_set_self (ctx : tas_ctx) (f : Nat) (t : List Nat) :
    family_tables (set_family_tables ctx f t) f = some t := by
  rw [family_tables_set]; simp

theorem family_tables_of_slot (ctx : tas_ctx) (f g : Nat) (h : family_slot f = family_slot g) :
    family_tables ctx f = family_tables ctx g := by
  simp only [family_tables, AF_INET, AF_INET6]
  simp only [family_slot, AF_INET, AF_INET6] at h
  by_cases hf : f = 2 <;> by_cases hf6 : f = 10 <;>
    by_cases hg : g = 2 <;> by_cases hg6 : g = 10 <;> simp_all

theorem set_family_tables_same (ctx : tas_ctx) (f : Nat) (t : List Nat)
    (h : family_tables ctx f = some t) : set_family_tables ctx f t = ctx := by
  simp only [family_tables, AF_INET, AF_INET6] at h
  simp only [set_family_tables, AF_INET, AF_INET6]
  cases ctx
  by_cases hf : f = 2 <;> by_cases hf6 : f = 10 <;> simp_all

theorem set_family_tables_twice (ctx : tas_ctx) (f : Nat) (t u : List Nat) :
    set_family_tables (set_family_tables ctx f t) f u = set_family_tables ctx f u := by
  simp only [set_family_tables, AF_INET, AF_INET6]
  by_cases hf : f = 2 <;> by_cases hf6 : f = 10 <;> simp_all

@[simp] theorem set_family_tables_elements (ctx : tas_ctx) (f : Nat) (t : List Nat) :
    (set_family_tables ctx f t).num_table_elements = ctx.num_table_elements := by
  unfold set_family_tables; split_ifs <;> rfl

@[simp] theorem set_family_tables_num (ctx : tas_ctx) (f : Nat) (t : List Nat) :
    (set_family_tables ctx f t).num_tables = ctx.num_tables := by
  unfold set_family_tables; split_ifs <;> rfl

@[simp] theorem set_family_tables_offset (ctx : tas_ctx) (f : Nat) (t : List Nat) :
    (set_family_tables ctx f t).table_offset = ctx.table_offset := by
  unfold set_family_tables; split_ifs <;> rfl

@[simp] theorem set_family_tables_timeout (ctx : tas_ctx) (f : Nat) (t : List Nat) :
    (set_family_tables ctx f t).table_timeout = ctx.table_timeout := by
  unfold set_family_tables; split_ifs <;> rfl

@[simp] theorem set_family_tables_db (ctx : tas_ctx) (f : Nat) (t : List Nat) :
    (set_family_tables ctx f t).db_handle = ctx.db_handle := by
  unfold set_family_tables; split_ifs <;> rfl

theorem family_configured_some (ctx : tas_ctx) (f : Nat)
    (h : family_configured ctx f = true) : ∃ t, family_tables ctx f = some t := by
  simp only [family_configured, AF_INET, AF_INET6, AF_UNSPEC] at h
  simp only [family_tables, AF_INET, AF_INET6]
  by_cases hf : f = 2 <;> by_cases hf6 : f = 10 <;>
    by_cases hu : f = 0 <;> simp_all [Option.isSome_iff_exists]

theorem family_configured_known (ctx : tas_ctx) (f : Nat)
    (h : family_configured ctx f = true) : f = AF_INET ∨ f = AF_INET6 ∨ f = AF_UNSPEC := by
  simp only [family_configured, AF_INET, AF_INET6, AF_UNSPEC] at h ⊢
  by_cases hf : f = 2 <;> by_cases hf6 : f = 10 <;>
    by_cases hu : f = 0 <;> simp_all

/-! ## Well-formedness -/

theorem tables_ok_some (n : Nat) (t : List Nat) :
    tables_ok n (some t) = true ↔ t.length = n ∧ ∀ w ∈ t, w < U32 := by
  simp [tables_ok]

theorem wf_family (ctx : tas_ctx) (h : ctx.wf) (f : Nat) (t : List Nat)
    (ht : family_tables ctx f = some t) :
    t.length = ctx.num_table_elements ∧ ∀ w ∈ t, w < U32 := by
  obtain ⟨h1, h2, h3, -, -, -⟩ := h
  unfold family_tables at ht
  rw [← tables_ok_some]
  split_ifs at ht <;> simp_all

theorem wf_set_family (ctx : tas_ctx) (h : ctx.wf) (f : Nat) (t : List Nat)
    (hl : t.length = ctx.num_table_elements) (hw : ∀ w ∈ t, w < U32) :
    (set_family_tables ctx f t).wf := by
  obtain ⟨h1, h2, h3, h4, h5, h6⟩ := h
  have ht : tables_ok ctx.num_table_elements (some t) = true := (tables_ok_some _ _).2 ⟨hl, hw⟩
  unfold set_family_tables
  split_ifs <;> exact ⟨by simpa using (by assumption), by simpa using (by assumption),
    by simpa using (by assumption), h4, h5, h6⟩

theorem set_toggle_ok (t : List Nat) (i w b : Nat) (hw : t[i]? = some w) (hb : b < 32)
    (ht : ∀ x ∈ t, x < U32) : ∀ x ∈ t.set i (w ^^^ (1 <<< b)), x < U32 := by
  intro x hx
  rcases List.mem_or_eq_of_mem_set hx with h | h
  · exact ht x h
  · subst h
    exact toggle_lt w b (ht w (List.getElem?_mem hw)) hb

/-! ## Bits of a bitmap -/

theorem table_index_lt (ctx : tas_ctx) (id : Nat) : table_index ctx id < U32 :=
  Nat.mod_lt _ (by decide)

theorem table_index_of_offset (ctx : tas_ctx) (j : Nat) (ho : ctx.table_offset < U32)
    (hj : j < U32) : table_index ctx ((ctx.table_offset + j) % U32) = j := by
  unfold table_index U32 at *
  omega

theorem offset_add_table_index (ctx : tas_ctx) (id : Nat) (ho : ctx.table_offset < U32)
    (hid : id < U32) : (ctx.table_offset + table_index ctx id) % U32 = id := by
  unfold table_index U32 at *
  omega

theorem table_index_inj (ctx : tas_ctx) (a b : Nat) (ho : ctx.table_offset < U32)
    (ha : a < U32) (hb : b < U32) (h : table_index ctx a = table_index ctx b) : a = b := by
  rw [← offset_add_table_index ctx a ho ha, ← offset_add_table_index ctx b ho hb, h]

theorem bit_at_of_getElem? (t : List Nat) (j w : Nat) (h : t[j / 32]? = some w) :
    bit_at t j = w.testBit (j % 32) := by
  simp [bit_at, h]

theorem bit_at_of_length_le (t : List Nat) (j : Nat) (h : t.length ≤ j / 32) :
    bit_at t j = false := by
  simp [bit_at, List.getElem?_eq_none h]

theorem bit_at_true_lt (t : List Nat) (j : Nat) (h : bit_at t j = true) : j / 32 < t.length := by
  by_contra hlt
  rw [bit_at_of_length_le t j (by omega)] at h
  exact Bool.false_ne_true h

theorem toggle_at_length (t : List Nat) (j : Nat) : (toggle_at t j).length = t.length := by
  unfold toggle_at
  split <;> simp

theorem toggle_at_words (t : List Nat) (j : Nat) (ht : ∀ x ∈ t, x < U32) :
    ∀ x ∈ toggle_at t j, x < U32 := by
  unfold toggle_at
  split
  · next w hw => exact set_toggle_ok t (j / 32) w (j % 32) hw (Nat.mod_lt _ (by decide)) ht
  · exact ht

theorem list_set_same (t : List Nat) (i w : Nat) (h : t[i]? = some w) : t.set i w = t := by
  apply List.ext_getElem?
  intro k
  by_cases hk : i = k
  · subst hk
    rcases List.getElem?_eq_some.1 h with ⟨hlt, -⟩
    rw [List.getElem?_set_self hlt, h]
  · rw [List.getElem?_set_ne hk]

theorem bit_at_toggle_at (t : List Nat) (j k : Nat) :
    bit_at (toggle_at t j) k =
      if k = j ∧ j / 32 < t.length then !bit_at t k else bit_at t k := by
  unfold toggle_at
  cases hw : t[j / 32]? with
  | none =>
    have hlen : ¬ j / 32 < t.length := by
      intro h
      rw [List.getElem?_eq_getElem h] at hw
      exact Option.noConfusion hw
    simp [hlen]
  | some w =>
    have hlt : j / 32 < t.length := by
      rcases List.getElem?_eq_some.1 hw with ⟨h, -⟩; exact h
    simp only [bit_at]
    by_cases hq : j / 32 = k / 32
    · rw [← hq, List.getElem?_set_self hlt, hw]
      simp only [testBit_toggle]
      by_cases hk : k = j
      · subst hk; simp [hlt]
      · have : j % 32 ≠ k % 32 := by omega
        simp [hk, this]
    · rw [List.getElem?_set_ne hq]
      have hk : k ≠ j := by rintro rfl; exact hq rfl
      simp [hk]

theorem toggle_at_toggle_at (t : List Nat) (j : Nat) : toggle_at (toggle_at t j) j = t := by
  unfold toggle_at
  cases hw : t[j / 32]? with
  | none => simp [hw]
  | some w =>
    have hlt : j / 32 < t.length := by
      rcases List.getElem?_eq_some.1 hw with ⟨h, -⟩; exact h
    simp only [List.getElem?_set_self hlt, List.set_set, toggle_toggle]
    exact list_set_same t (j / 32) w hw

/-! ## The pool operations on bits -/

theorem toggle_at_eq_set (t : List Nat) (j w : Nat) (h : t[j / 32]? = some w) :
    toggle_at t j = t.set (j / 32) (w ^^^ (1 <<< (j % 32))) := by
  simp [toggle_at, h]

theorem toggle_at_of_length_le (t : List Nat) (j : Nat) (h : t.length ≤ j / 32) :
    toggle_at t j = t := by
  simp [toggle_at, List.getElem?_eq_none h]

theorem is_table_free_eq (ctx : tas_ctx) (f id : Nat) (t : List Nat)
    (ht : family_tables ctx f = some t) (hl : t.length = ctx.num_table_elements) :
    is_table_free ctx f id = some (if bit_at t (table_index ctx id) then 1 else 0) := by
  unfold is_table_free
  simp only [shr5_eq, and31_eq, ht]
  change (if table_index ctx id / 32 ≥ ctx.num_table_elements then some 0 else
    match t[table_index ctx id / 32]? with
    | none => none
    | some w => some (if w &&& 1 <<< (table_index ctx id % 32) = 0 then 0 else 1)) = _
  by_cases hge : table_index ctx id / 32 ≥ ctx.num_table_elements
  · rw [if_pos hge, bit_at_of_length_le t _ (by omega)]; rfl
  · rw [if_neg hge]
    have hlt : table_index ctx id / 32 < t.length := by omega
    rw [List.getElem?_eq_getElem hlt]
    rw [bit_at_of_getElem? t _ _ (List.getElem?_eq_getElem hlt)]
    simp only [and_mask_eq_zero]
    cases h : (t[table_index ctx id / 32]).testBit (table_index ctx id % 32) <;> simp

theorem release_table_eq (ctx : tas_ctx) (f id : Nat) (t : List Nat)
    (ht : family_tables ctx f = some t) (hlt : table_index ctx id / 32 < t.length) :
    release_table ctx f id = some (set_family_tables ctx f (toggle_at t (table_index ctx id))) := by
  unfold release_table toggle_bit
  simp only [shr5_eq, and31_eq, ht]
  change (match t[table_index ctx id / 32]? with
    | none => none
    | some w => some (set_family_tables ctx f
        (t.set (table_index ctx id / 32) (w ^^^ 1 <<< (table_index ctx id % 32))))) = _
  rw [toggle_at_eq_set t _ _ (List.getElem?_eq_getElem hlt), List.getElem?_eq_getElem hlt]

theorem set_table_eq (ctx : tas_ctx) (f id : Nat) (t : List Nat)
    (ht : family_tables ctx f = some t) (hl : t.length = ctx.num_table_elements) :
    set_table ctx f id = some (set_family_tables ctx f (toggle_at t (table_index ctx id))) := by
  unfold set_table toggle_bit
  simp only [shr5_eq, and31_eq, ht]
  change (if table_index ctx id / 32 ≥ ctx.num_table_elements then some ctx else
    match t[table_index ctx id / 32]? with
    | none => none
    | some w => some (set_family_tables ctx f
        (t.set (table_index ctx id / 32) (w ^^^ 1 <<< (table_index ctx id % 32))))) = _
  by_cases hge : table_index ctx id / 32 ≥ ctx.num_table_elements
  · rw [if_pos hge, toggle_at_of_length_le t _ (by omega), set_family_tables_same ctx f t ht]
  · rw [if_neg hge]
    have hlt : table_index ctx id / 32 < t.length := by omega
    rw [toggle_at_eq_set t _ _ (List.getElem?_eq_getElem hlt), List.getElem?_eq_getElem hlt]

/-! ## `allocate_table` takes the lowest set bit -/

theorem allocate_loop_spec (t : List Nat) (hw : ∀ x ∈ t, x < U32) :
    ∀ (fuel i : Nat), i + fuel = t.length → (∀ j, j < 32 * i → bit_at t j = false) →
      ((∀ j, bit_at t j = false) ∧ allocate_loop fuel i t = some (0, t)) ∨
      ∃ j, j < 32 * t.length ∧ bit_at t j = true ∧ (∀ k, k < j → bit_at t k = false) ∧
        allocate_loop fuel i t = some ((j + 1) % U32, toggle_at t j)
  | 0, i, hlen, hlow => by
    left
    refine ⟨fun j => ?_, rfl⟩
    by_cases hj : j < 32 * i
    · exact hlow j hj
    · exact bit_at_of_length_le t j (by omega)
  | fuel + 1, i, hlen, hlow => by
    have hlt : i < t.length := by omega
    have hget : t[i]? = some t[i] := List.getElem?_eq_getElem hlt
    by_cases h0 : t[i] = 0
    · have hlow' : ∀ j, j < 32 * (i + 1) → bit_at t j = false := by
        intro j hj
        by_cases hj2 : j < 32 * i
        · exact hlow j hj2
        · have hq : j / 32 = i := by omega
          rw [bit_at_of_getElem? t j t[i] (by rw [hq]; exact hget), h0]
          exact Nat.zero_testBit _
      have ih := allocate_loop_spec t hw fuel (i + 1) (by omega) hlow'
      simpa [allocate_loop, hget, h0] using ih
    · right
      obtain ⟨k, hk, hf, hb, hkl⟩ := ffs_spec t[i] h0 (hw _ (List.getElem?_mem hget))
      have hq : (32 * i + k) / 32 = i := by omega
      have hr : (32 * i + k) % 32 = k := by omega
      refine ⟨32 * i + k, by omega, ?_, ?_, ?_⟩
      · rw [bit_at_of_getElem? t _ t[i] (by rw [hq]; exact hget), hr]; exact hb
      · intro j hj
        by_cases hj2 : j < 32 * i
        · exact hlow j hj2
        · have hq2 : j / 32 = i := by omega
          rw [bit_at_of_getElem? t j t[i] (by rw [hq2]; exact hget)]
          exact hkl _ (by omega)
      · rw [toggle_at_eq_set t _ t[i] (by rw [hq]; exact hget), hq, hr]
        simp only [allocate_loop, hget, h0, if_false, hf, Nat.add_sub_cancel]
        congr 3
        omega

theorem allocate_table_spec (ctx : tas_ctx) (f : Nat) (t : List Nat) (hwf : ctx.wf)
    (ht : family_tables ctx f = some t) :
    ((∀ j, bit_at t j = false) ∧ allocate_table ctx f = some (0, ctx)) ∨
    ∃ j, j < 32 * ctx.num_table_elements ∧ bit_at t j = true ∧
      (∀ k, k < j → bit_at t k = false) ∧
      allocate_table ctx f =
        some (if j < ctx.num_tables then j + 1 else 0,
          set_family_tables ctx f (toggle_at t j)) := by
  obtain ⟨hl, hw⟩ := wf_family ctx hwf f t ht
  obtain ⟨-, -, -, ho, hn, he⟩ := hwf
  rcases allocate_loop_spec t hw ctx.num_table_elements 0 (by omega) (by intro j hj; omega) with
    ⟨hall, hloop⟩ | ⟨j, hj, hb, hlow, hloop⟩
  · left
    refine ⟨hall, ?_⟩
    unfold allocate_table
    by_cases hz : ctx.num_table_elements = 0
    · rw [if_pos hz]
    · rw [if_neg hz]
      simp only [ht, hloop]
      have : ¬ (0 > ctx.num_tables) := by omega
      rw [if_neg this, set_family_tables_same ctx f t ht]
  · right
    refine ⟨j, by omega, hb, hlow, ?_⟩
    have hz : ctx.num_table_elements ≠ 0 := by omega
    unfold allocate_table
    rw [if_neg hz]
    simp only [ht, hloop]
    unfold U32 at *
    by_cases hjn : j < ctx.num_tables
    · have h1 : (j + 1) % 4294967296 = j + 1 := by omega
      have h2 : ¬ (j + 1 > ctx.num_tables) := by omega
      rw [h1, if_neg h2, if_pos hjn]
    · rw [if_neg hjn]
      by_cases h3 : (j + 1) % 4294967296 > ctx.num_tables
      · rw [if_pos h3]
      · rw [if_neg h3]
        have h4 : (j + 1) % 4294967296 = 0 := by omega
        rw [h4]

/-! ## The two paths of the request handler -/

theorem family_configured_set (ctx : tas_ctx) (f g : Nat) (t : List Nat)
    (h : family_configured ctx g = true) :
    family_configured (set_family_tables ctx f t) g = true := by
  simp only [family_configured, set_family_tables, AF_INET, AF_INET6, AF_UNSPEC] at h ⊢
  by_cases hf : f = 2 <;> by_cases hf6 : f = 10 <;>
    by_cases hg : g = 2 <;> by_cases hg6 : g = 10 <;> by_cases hu : g = 0 <;> simp_all

theorem get_table_of_no_lease (ctx : tas_ctx) (req : tas_client_req)
    (h : ∀ l ∈ ctx.db_handle, l.key ≠ req) : table_allocator_sqlite_get_table ctx req = 0 := by
  unfold table_allocator_sqlite_get_table
  have : ctx.db_handle.find? (fun l => decide (l.key = req)) = none := by
    rw [List.find?_eq_none]
    intro l hl
    simpa using h l hl
  rw [this]

/-- The renewal path: the store knows a non-zero id for the key. -/
theorem handle_req_renew_eq (ctx : tas_ctx) (req : tas_client_req) (now rt ls : Nat)
    (db_ok : Bool) (t : List Nat) (hcfg : family_configured ctx req.addr_family = true)
    (ht : family_tables ctx req.addr_family = some t)
    (hl : t.length = ctx.num_table_elements)
    (hget : table_allocator_sqlite_get_table ctx req ≠ 0) :
    table_allocator_server_clients_handle_req (some now) db_ok ctx req rt ls =
      let id := table_allocator_sqlite_get_table ctx req
      let ctx1 := if bit_at t (table_index ctx id) then
          set_family_tables ctx req.addr_family (toggle_at t (table_index ctx id))
        else ctx
      let upd := table_allocator_sqlite_update_lease db_ok ctx1 id req.addr_family
        (now + ctx.table_timeout)
      if db_ok then some ⟨1, upd.2, id, (now + ctx.table_timeout) % U32⟩
      else some ⟨0, ctx1, rt, ls⟩ := by
  unfold table_allocator_server_clients_handle_req
  simp only [hcfg, ne_eq, hget, not_false_eq_true, if_true, Bool.true_eq_false, if_false,
    is_table_free_eq ctx _ _ t ht hl, set_table_eq ctx _ _ t ht hl]
  cases hb : bit_at t (table_index ctx (table_allocator_sqlite_get_table ctx req)) <;>
    cases db_ok <;> simp [table_allocator_sqlite_update_lease]

/-- The first-allocation path: the store returns `0` for the key. -/
theorem handle_req_alloc_eq (ctx : tas_ctx) (req : tas_client_req) (now rt ls : Nat)
    (db_ok : Bool) (hcfg : family_configured ctx req.addr_family = true)
    (hget : table_allocator_sqlite_get_table ctx req = 0) (r : Nat) (ctx1 : tas_ctx)
    (ha : allocate_table ctx req.addr_family = some (r, ctx1)) :
    table_allocator_server_clients_handle_req (some now) db_ok ctx req rt ls =
      if r = 0 then some ⟨0, ctx1, rt, ls⟩
      else if db_ok then
        some ⟨1, (table_allocator_sqlite_insert_table true ctx1 req
          ((ctx1.table_offset + (r - 1)) % U32) (now + ctx.table_timeout)).2,
          (ctx1.table_offset + (r - 1)) % U32, (now + ctx.table_timeout) % U32⟩
      else
        match release_table ctx1 req.addr_family ((ctx1.table_offset + (r - 1)) % U32) with
        | none => none
        | some ctx3 => some ⟨0, ctx3, rt, ls⟩ := by
  unfold table_allocator_server_clients_handle_req
  simp only [hcfg, ne_eq, hget, not_true_eq_false, Bool.true_eq_false, if_false, ha]
  by_cases hr : r = 0
  · simp [hr]
  · cases db_ok <;> simp [hr, table_allocator_sqlite_insert_table]

/-! ## Claims on the pool operations -/

/-- C8: for a well-formed context and a configured family, `allocate_table`
returns (it never touches memory outside the bitmap), its result is non-zero
exactly when some id `table_offset + j`, `j < num_tables`, of that family is
free, and a non-zero result `r` satisfies `1 ≤ r ≤ num_tables`, so that the id
`table_offset + (r - 1)` does not exceed `table_offset + num_tables - 1`. The
sizing `num_tables ≤ 32 * num_table_elements` is not needed for this. -/
theorem allocate_table_nonzero_iff_free (ctx : tas_ctx) (addr_family : Nat) (hwf : ctx.wf)
    (hcfg : family_tables ctx addr_family ≠ none) :
    ∃ r ctx', allocate_table ctx addr_family = some (r, ctx') ∧
      (r ≠ 0 ↔ ∃ j, j < ctx.num_tables ∧
        is_table_free ctx addr_family ((ctx.table_offset + j) % U32) = some 1) ∧
      (r ≠ 0 → 1 ≤ r ∧ r ≤ ctx.num_tables ∧
        ctx.table_offset + (r - 1) ≤ ctx.table_offset + ctx.num_tables - 1) := by
  obtain ⟨t, ht⟩ := Option.ne_none_iff_exists'.1 hcfg
  obtain ⟨hl, -⟩ := wf_family ctx hwf addr_family t ht
  have hfree : ∀ j, j < ctx.num_tables →
      (is_table_free ctx addr_family ((ctx.table_offset + j) % U32) = some 1 ↔
        bit_at t j = true) := by
    intro j hj
    rw [is_table_free_eq ctx _ _ t ht hl,
      table_index_of_offset ctx j hwf.2.2.2.1 (Nat.lt_trans hj hwf.2.2.2.2.1)]
    cases bit_at t j <;> simp
  rcases allocate_table_spec ctx addr_family t hwf ht with ⟨hall, ha⟩ | ⟨j, hj, hb, hlow, ha⟩
  · refine ⟨0, ctx, ha, ?_, fun h => absurd rfl h⟩
    constructor
    · intro h; exact absurd rfl h
    · rintro ⟨j, hj, hf⟩
      rw [hfree j hj, hall j] at hf
      exact absurd hf (by decide)
  · refine ⟨_, _, ha, ?_, ?_⟩
    · constructor
      · intro h
        by_cases hjn : j < ctx.num_tables
        · exact ⟨j, hjn, (hfree j hjn).2 hb⟩
        · rw [if_neg hjn] at h; exact absurd rfl h
      · rintro ⟨k, hk, hf⟩
        have hkb := (hfree k hk).1 hf
        have hjk : j ≤ k := by
          by_contra hlt
          rw [hlow k (by omega)] at hkb
          exact absurd hkb (by decide)
        rw [if_pos (by omega)]
        omega
    · intro h
      by_cases hjn : j < ctx.num_tables
      · rw [if_pos hjn]; omega
      · rw [if_neg hjn] at h; exact absurd rfl h


/-- Witness of C8 on the four-id pool 100..103. -/
theorem allocate_table_nonzero_iff_free_witness :
    pool_100_103.wf ∧ family_tables pool_100_103 AF_INET ≠ none ∧
    ∃ r ctx', allocate_table pool_100_103 AF_INET = some (r, ctx') ∧
      (r ≠ 0 ↔ ∃ j, j < pool_100_103.num_tables ∧
        is_table_free pool_100_103 AF_INET ((pool_100_103.table_offset + j) % U32) = some 1) ∧
      (r ≠ 0 → 1 ≤ r ∧ r ≤ pool_100_103.num_tables ∧
        pool_100_103.table_offset + (r - 1) ≤
          pool_100_103.table_offset + pool_100_103.num_tables - 1) :=
  ⟨by decide, by decide,
    allocate_table_nonzero_iff_free pool_100_103 AF_INET (by decide) (by decide)⟩

/-- C9, counterexample: on the pool 100..103 in which id 100 is busy, `set_table`
for id 100 makes the id free again. -/
theorem set_table_frees_busy_id :
    is_table_free { pool_100_103 with tables_inet := some [0xFFFFFFFE] } AF_INET 100 = some 0 ∧
    table_allocator_server_clients_set_table
      { pool_100_103 with tables_inet := some [0xFFFFFFFE] } AF_INET 100 = some pool_100_103 ∧
    is_table_free pool_100_103 AF_INET 100 = some 1 := by
  decide

/-- C9, amended: when the bit of an id is free before the call, `set_table`
returns and the bit is busy afterwards. -/
theorem set_table_marks_free_id_busy (ctx : tas_ctx) (addr_family rt_table : Nat)
    (hfree : is_table_free ctx addr_family rt_table = some 1) :
    ∃ ctx', table_allocator_server_clients_set_table ctx addr_family rt_table = some ctx' ∧
      is_table_free ctx' addr_family rt_table = some 0 := by
  unfold table_allocator_server_clients_set_table set_table toggle_bit
  unfold is_table_free at hfree ⊢
  simp only [shr5_eq, and31_eq] at hfree ⊢
  by_cases hge : (rt_table + U32 - ctx.table_offset) % U32 / 32 ≥ ctx.num_table_elements
  · rw [if_pos hge] at hfree
    exact absurd hfree (by decide)
  · rw [if_neg hge] at hfree
    rw [if_neg hge]
    cases ht : family_tables ctx addr_family with
    | none => simp [ht] at hfree
    | some t =>
      cases hw : t[(rt_table + U32 - ctx.table_offset) % U32 / 32]? with
      | none => simp [ht, hw] at hfree
      | some w =>
        have hlt : (rt_table + U32 - ctx.table_offset) % U32 / 32 < t.length := by
          rcases List.getElem?_eq_some.1 hw with ⟨h, -⟩; exact h
        simp only [ht, hw] at hfree
        have hbit : w.testBit ((rt_table + U32 - ctx.table_offset) % U32 % 32) = true := by
          by_contra hb
          rw [Bool.not_eq_true] at hb
          rw [if_pos ((and_mask_eq_zero _ _).2 hb)] at hfree
          exact absurd hfree (by decide)
        refine ⟨set_family_tables ctx addr_family
          (t.set ((rt_table + U32 - ctx.table_offset) % U32 / 32)
            (w ^^^ 1 <<< ((rt_table + U32 - ctx.table_offset) % U32 % 32))), by simp [hw], ?_⟩
        simp only [set_family_tables_offset, set_family_tables_elements, if_neg hge,
          family_tables_set_self, List.getElem?_set_self hlt]
        rw [if_pos]
        rw [and_mask_eq_zero, testBit_toggle]
        simp [hbit]

/-- Witness of the amended C9: id 102 of the fresh pool 100..103. -/
theorem set_table_marks_free_id_busy_witness :
    is_table_free pool_100_103 AF_INET 102 = some 1 ∧
    ∃ ctx', table_allocator_server_clients_set_table pool_100_103 AF_INET 102 = some ctx' ∧
      is_table_free ctx' AF_INET 102 = some 0 :=
  ⟨by decide, set_table_marks_free_id_busy pool_100_103 AF_INET 102 (by decide)⟩

/-- C10, counterexample: in the pool 100..103 (one word, four ids) the id 104
lies outside the range but inside the word; `set_table` clears its bit. -/
theorem set_table_touches_trailing_bit :
    ¬ (pool_100_103.table_offset ≤ 104 ∧
        104 < pool_100_103.table_offset + pool_100_103.num_tables) ∧
    table_allocator_server_clients_set_table pool_100_103 AF_INET 104 =
      some { pool_100_103 with tables_inet := some [0xFFFFFFEF] } := by
  decide

/-- C10, amended: when the ids of the bitmap words do not wrap
(`table_offset + 32 * num_table_elements ≤ 2^32`), `set_table` leaves the
context unchanged for every 32-bit id below `table_offset` or at or after
`table_offset + 32 * num_table_elements`. -/
theorem set_table_ignores_ids_outside_bitmap (ctx : tas_ctx) (addr_family rt_table : Nat)
    (hspan : ctx.table_offset + 32 * ctx.num_table_elements ≤ U32) (hid : rt_table < U32)
    (hout : rt_table < ctx.table_offset ∨
      ctx.table_offset + 32 * ctx.num_table_elements ≤ rt_table) :
    table_allocator_server_clients_set_table ctx addr_family rt_table = some ctx := by
  unfold table_allocator_server_clients_set_table set_table
  simp only [shr5_eq]
  rw [if_pos]
  unfold U32 at *
  rcases hout with h | h <;> omega

/-- Witness of the amended C10: ids 99 and 132 around the pool 100..103. -/
theorem set_table_ignores_ids_outside_bitmap_witness :
    (pool_100_103.table_offset + 32 * pool_100_103.num_table_elements ≤ U32 ∧ 99 < U32 ∧
      (99 < pool_100_103.table_offset ∨
        pool_100_103.table_offset + 32 * pool_100_103.num_table_elements ≤ 99)) ∧
    table_allocator_server_clients_set_table pool_100_103 AF_INET 99 = some pool_100_103 :=
  ⟨by decide, set_table_ignores_ids_outside_bitmap pool_100_103 AF_INET 99 (by decide)
    (by decide) (by decide)⟩

/-! ## Claims on release and on the first allocation -/

theorem toggle_bit_db (ctx ctx' : tas_ctx) (f i b : Nat) (h : toggle_bit ctx f i b = some ctx') :
    ctx'.db_handle = ctx.db_handle := by
  unfold toggle_bit at h
  split at h
  · exact Option.noConfusion h
  · split at h
    · exact Option.noConfusion h
    · injection h with h; subst h; simp

theorem release_table_db (ctx ctx' : tas_ctx) (f id : Nat)
    (h : release_table ctx f id = some ctx') : ctx'.db_handle = ctx.db_handle :=
  toggle_bit_db ctx ctx' f _ _ h

theorem get_table_congr (ctx ctx' : tas_ctx) (req : tas_client_req)
    (h : ctx'.db_handle = ctx.db_handle) :
    table_allocator_sqlite_get_table ctx' req = table_allocator_sqlite_get_table ctx req := by
  unfold table_allocator_sqlite_get_table; rw [h]

theorem get_table_after_remove (ctx : tas_ctx) (req : tas_client_req) :
    table_allocator_sqlite_get_table
      (table_allocator_sqlite_remove_table true ctx req).2 req = 0 := by
  apply get_table_of_no_lease
  intro l hl
  simp only [table_allocator_sqlite_remove_table, if_true] at hl
  simpa using (List.mem_filter.1 hl).2

/-- C3, the code at the failing input: in the pool 100..103 with all four ids
busy and no lease for key E, the request of key E returns `0` and leaves the
store alone, but the bitmap word changes from `0xFFFFFFF0` to `0xFFFFFFE0`. -/
theorem handle_req_exhausted_clears_trailing_bit :
    server_run pool_100_103
      [.request key_A (some 1) true, .request key_B (some 1) true,
        .request key_C (some 1) true, .request key_D (some 1) true] = some pool_100_103_full ∧
    (∀ j, j < 4 → is_table_free pool_100_103_full AF_INET (100 + j) = some 0) ∧
    (∀ l ∈ pool_100_103_full.db_handle, l.key ≠ key_E) ∧
    pool_100_103_full.tables_inet = some [0xFFFFFFF0] ∧
    table_allocator_server_clients_handle_req (some 2) true pool_100_103_full key_E 0 0 =
      some ⟨0, { pool_100_103_full with tables_inet := some [0xFFFFFFE0] }, 0, 0⟩ := by
  decide

@[simp] theorem table_index_set_family (ctx : tas_ctx) (f id : Nat) (u : List Nat) :
    table_index (set_family_tables ctx f u) id = table_index ctx id := by
  simp [table_index]

theorem is_table_free_set_family (ctx : tas_ctx) (f g id : Nat) (u : List Nat)
    (hu : u.length = ctx.num_table_elements) :
    is_table_free (set_family_tables ctx f u) g id =
      if family_slot f = family_slot g then
        some (if bit_at u (table_index ctx id) then 1 else 0)
      else is_table_free ctx g id := by
  by_cases hs : family_slot f = family_slot g
  · rw [if_pos hs]
    have h1 : family_tables (set_family_tables ctx f u) g = some u := by
      rw [family_tables_set, if_pos hs]
    rw [is_table_free_eq _ g id u h1 (by simpa using hu), table_index_set_family]
  · rw [if_neg hs]
    unfold is_table_free
    simp only [family_tables_set, if_neg hs, set_family_tables_offset,
      set_family_tables_elements]

/-- C5: in a well-formed context, for a request of a configured family whose key
has no lease, when `allocate_table` succeeds and the store insert fails, the
request handler returns `0`, leaves the outputs alone, and the context after the
call (bitmaps and store) equals the context before it. -/
theorem handle_req_insert_failure_restores_pool (ctx : tas_ctx) (req : tas_client_req)
    (now rt_table lease_sec_ptr : Nat) (hwf : ctx.wf)
    (hcfg : family_configured ctx req.addr_family = true)
    (hnew : ∀ l ∈ ctx.db_handle, l.key ≠ req)
    (halloc : ∃ r ctx1, allocate_table ctx req.addr_family = some (r, ctx1) ∧ r ≠ 0) :
    table_allocator_server_clients_handle_req (some now) false ctx req rt_table lease_sec_ptr =
      some ⟨0, ctx, rt_table, lease_sec_ptr⟩ := by
  obtain ⟨t, ht⟩ := family_configured_some ctx _ hcfg
  obtain ⟨hl, hw⟩ := wf_family ctx hwf _ t ht
  obtain ⟨r, ctx1, ha, hr⟩ := halloc
  have ho := hwf.2.2.2.1
  have hn := hwf.2.2.2.2.1
  rw [handle_req_alloc_eq ctx req now rt_table lease_sec_ptr false hcfg
    (get_table_of_no_lease ctx req hnew) r ctx1 ha, if_neg hr]
  rcases allocate_table_spec ctx req.addr_family t hwf ht with ⟨-, ha'⟩ | ⟨j, hj, hb, -, ha'⟩
  · rw [ha] at ha'
    injection ha' with ha'
    injection ha' with h1 h2
    exact absurd h1 hr
  · rw [ha] at ha'
    injection ha' with ha'
    injection ha' with h1 h2
    have hjn : j < ctx.num_tables := by
      by_contra hjn
      rw [if_neg hjn] at h1
      exact hr h1
    rw [if_pos hjn] at h1
    subst h1; subst h2
    have hjU : j < U32 := Nat.lt_trans hjn hn
    simp only [Bool.false_eq_true, if_false, set_family_tables_offset, Nat.add_sub_cancel]
    rw [release_table_eq _ _ _ (toggle_at t j) (family_tables_set_self _ _ _)]
    · rw [table_index_set_family, table_index_of_offset ctx j ho hjU, toggle_at_toggle_at,
        set_family_tables_twice, set_family_tables_same ctx _ t ht]
    · rw [table_index_set_family, table_index_of_offset ctx j ho hjU, toggle_at_length, hl]
      omega

/-- Witness of C5: key E asks for a table in the fresh pool 100..103 while the
store refuses the insert. -/
theorem handle_req_insert_failure_restores_pool_witness :
    (pool_100_103.wf ∧ family_configured pool_100_103 key_E.addr_family = true ∧
      (∀ l ∈ pool_100_103.db_handle, l.key ≠ key_E) ∧
      ∃ r ctx1, allocate_table pool_100_103 key_E.addr_family = some (r, ctx1) ∧ r ≠ 0) ∧
    table_allocator_server_clients_handle_req (some 7) false pool_100_103 key_E 0 0 =
      some ⟨0, pool_100_103, 0, 0⟩ :=
  ⟨⟨by decide, by decide, by decide, 1, _, rfl, by decide⟩,
    handle_req_insert_failure_restores_pool pool_100_103 key_E 7 0 0 (by decide) (by decide)
      (by decide) ⟨1, _, rfl, by decide⟩⟩

theorem is_table_free_insert (ok : Bool) (ctx : tas_ctx) (req : tas_client_req)
    (id ls g x : Nat) :
    is_table_free (table_allocator_sqlite_insert_table ok ctx req id ls).2 g x =
      is_table_free ctx g x := by
  cases ok <;> rfl

theorem is_table_free_update (ok : Bool) (ctx : tas_ctx) (id f ls g x : Nat) :
    is_table_free (table_allocator_sqlite_update_lease ok ctx id f ls).2 g x =
      is_table_free ctx g x := by
  cases ok <;> rfl

theorem is_table_free_remove (ok : Bool) (ctx : tas_ctx) (req : tas_client_req) (g x : Nat) :
    is_table_free (table_allocator_sqlite_remove_table ok ctx req).2 g x =
      is_table_free ctx g x := by
  cases ok <;> rfl

/-- C7: in a well-formed context with a free id `table_offset + j`,
`j < num_tables`, in the family of the request, a request whose key has no lease
(clock read and store insert succeeding) returns `1` and grants the id
`table_offset + j` with the least such `j`: that id was free, every lower id of
the range was busy, afterwards that id is busy, and `is_table_free` answers as
before for every other 32-bit id and every other family. -/
theorem handle_req_grants_lowest_free (ctx : tas_ctx) (req : tas_client_req)
    (now rt_table lease_sec_ptr : Nat) (hwf : ctx.wf)
    (hcfg : family_configured ctx req.addr_family = true)
    (hnew : ∀ l ∈ ctx.db_handle, l.key ≠ req)
    (hfree : ∃ j, j < ctx.num_tables ∧
      is_table_free ctx req.addr_family ((ctx.table_offset + j) % U32) = some 1) :
    ∃ j ctx', j < ctx.num_tables ∧
      table_allocator_server_clients_handle_req (some now) true ctx req rt_table lease_sec_ptr =
        some ⟨1, ctx', (ctx.table_offset + j) % U32, (now + ctx.table_timeout) % U32⟩ ∧
      is_table_free ctx req.addr_family ((ctx.table_offset + j) % U32) = some 1 ∧
      (∀ k, k < j → is_table_free ctx req.addr_family ((ctx.table_offset + k) % U32) = some 0) ∧
      is_table_free ctx' req.addr_family ((ctx.table_offset + j) % U32) = some 0 ∧
      (∀ g id, id < U32 →
        ¬ (family_slot g = family_slot req.addr_family ∧ id = (ctx.table_offset + j) % U32) →
        is_table_free ctx' g id = is_table_free ctx g id) := by
  obtain ⟨t, ht⟩ := family_configured_some ctx _ hcfg
  obtain ⟨hl, hw⟩ := wf_family ctx hwf _ t ht
  have ho := hwf.2.2.2.1
  have hn := hwf.2.2.2.2.1
  have hbit : ∀ j, j < ctx.num_tables →
      is_table_free ctx req.addr_family ((ctx.table_offset + j) % U32) =
        some (if bit_at t j then 1 else 0) := by
    intro j hj
    rw [is_table_free_eq ctx _ _ t ht hl, table_index_of_offset ctx j ho (Nat.lt_trans hj hn)]
  obtain ⟨j0, hj0, hf0⟩ := hfree
  have hb0 : bit_at t j0 = true := by
    rw [hbit j0 hj0] at hf0
    by_contra hb
    rw [Bool.not_eq_true] at hb
    rw [hb] at hf0
    exact absurd hf0 (by decide)
  rcases allocate_table_spec ctx req.addr_family t hwf ht with ⟨hall, -⟩ | ⟨j, hj, hb, hlow, ha⟩
  · rw [hall j0] at hb0
    exact absurd hb0 (by decide)
  · have hjj0 : j ≤ j0 := by
      by_contra hlt
      rw [hlow j0 (by omega)] at hb0
      exact absurd hb0 (by decide)
    have hjn : j < ctx.num_tables := by omega
    have hjU : j < U32 := Nat.lt_trans hjn hn
    rw [if_pos hjn] at ha
    refine ⟨j, (table_allocator_sqlite_insert_table true
      (set_family_tables ctx req.addr_family (toggle_at t j)) req
      ((ctx.table_offset + j) % U32) (now + ctx.table_timeout)).2, hjn, ?_, ?_, ?_, ?_, ?_⟩
    · rw [handle_req_alloc_eq ctx req now rt_table lease_sec_ptr true hcfg
        (get_table_of_no_lease ctx req hnew) _ _ ha]
      simp only [Nat.add_one_ne_zero, if_false, if_true, set_family_tables_offset,
        Nat.add_sub_cancel]
    · rw [hbit j hjn, hb]; rfl
    · intro k hk
      rw [hbit k (by omega), hlow k hk]; rfl
    · have hlen : j / 32 < t.length := by omega
      rw [is_table_free_insert, is_table_free_set_family _ _ _ _ _
        (by rw [toggle_at_length, hl]),
        if_pos (rfl : family_slot req.addr_family = family_slot req.addr_family),
        table_index_of_offset ctx j ho hjU, bit_at_toggle_at,
        if_pos (⟨rfl, hlen⟩ : j = j ∧ j / 32 < t.length), hb]
      rfl
    · intro g id hid hne
      rw [is_table_free_insert, is_table_free_set_family _ _ _ _ _
        (by rw [toggle_at_length, hl])]
      by_cases hs : family_slot req.addr_family = family_slot g
      · rw [if_pos hs]
        have htg : family_tables ctx g = some t := by
          rw [← family_tables_of_slot ctx _ _ hs]; exact ht
        rw [is_table_free_eq ctx g id t htg hl, bit_at_toggle_at]
        have hidx : table_index ctx id ≠ j := by
          intro h
          apply hne
          refine ⟨hs.symm, ?_⟩
          rw [← h, offset_add_table_index ctx id ho hid]
        rw [if_neg (fun h : table_index ctx id = j ∧ j / 32 < t.length => hidx h.1)]
      · rw [if_neg hs]

/-- Witness of C7: in the pool 100..103 where B holds 101 and A has released
100, key C is granted 100 again. -/
theorem handle_req_grants_lowest_free_witness :
    (pool_100_103_B.wf ∧ family_configured pool_100_103_B key_C.addr_family = true ∧
      (∀ l ∈ pool_100_103_B.db_handle, l.key ≠ key_C) ∧
      ∃ j, j < pool_100_103_B.num_tables ∧
        is_table_free pool_100_103_B key_C.addr_family
          ((pool_100_103_B.table_offset + j) % U32) = some 1) ∧
    ∃ j ctx', j < pool_100_103_B.num_tables ∧
      table_allocator_server_clients_handle_req (some 3) true pool_100_103_B key_C 0 0 =
        some ⟨1, ctx', (pool_100_103_B.table_offset + j) % U32,
          (3 + pool_100_103_B.table_timeout) % U32⟩ ∧
      is_table_free pool_100_103_B key_C.addr_family
        ((pool_100_103_B.table_offset + j) % U32) = some 1 ∧
      (∀ k, k < j → is_table_free pool_100_103_B key_C.addr_family
        ((pool_100_103_B.table_offset + k) % U32) = some 0) ∧
      is_table_free ctx' key_C.addr_family ((pool_100_103_B.table_offset + j) % U32) = some 0 ∧
      (∀ g id, id < U32 →
        ¬ (family_slot g = family_slot key_C.addr_family ∧
          id = (pool_100_103_B.table_offset + j) % U32) →
        is_table_free ctx' g id = is_table_free pool_100_103_B g id) :=
  ⟨⟨by decide, by decide, by decide, 0, by decide, by decide⟩,
    handle_req_grants_lowest_free pool_100_103_B key_C 3 0 0 (by decide) (by decide)
      (by decide) ⟨0, by decide, by decide⟩⟩

/-- The scenario of the specification on the pool 100..103: A is granted 100, B
101, A releases, C is granted 100, the renewal of B keeps 101. -/
theorem scenario_pool_100_103 :
    (table_allocator_server_clients_handle_req (some 1) true pool_100_103 key_A 0 0).map
      (fun r => (r.ret, r.rt_table)) = some (1, 100) ∧
    ((server_run pool_100_103 [.request key_A (some 1) true]).bind fun c =>
      (table_allocator_server_clients_handle_req (some 1) true c key_B 0 0).map
        (fun r => (r.ret, r.rt_table))) = some (1, 101) ∧
    ((server_run pool_100_103 [.request key_A (some 1) true, .request key_B (some 1) true,
        .release key_A true]).bind fun c =>
      (table_allocator_server_clients_handle_req (some 2) true c key_C 0 0).map
        (fun r => (r.ret, r.rt_table))) = some (1, 100) ∧
    ((server_run pool_100_103 [.request key_A (some 1) true, .request key_B (some 1) true,
        .release key_A true, .request key_C (some 2) true]).bind fun c =>
      (table_allocator_server_clients_handle_req (some 3) true c key_B 0 0).map
        (fun r => (r.ret, r.rt_table, r.lease_sec))) = some (1, 101, 63) := by
  decide

/-! ## Renewal -/

theorem find_key_map (g : lease → lease) (hg : ∀ l, (g l).key = l.key)
    (hr : ∀ l, (g l).rt_table = l.rt_table) (req : tas_client_req) :
    ∀ db : List lease,
      (match (db.map g).find? (fun l => decide (l.key = req)) with
        | some l => l.rt_table
        | none => 0) =
      (match db.find? (fun l => decide (l.key = req)) with
        | some l => l.rt_table
        | none => 0)
  | [] => rfl
  | l :: db => by
    have ih := find_key_map g hg hr req db
    by_cases hk : l.key = req
    · have hk' : (g l).key = req := by rw [hg]; exact hk
      simp only [List.map_cons, List.find?_cons, hk, hk', decide_True]
      exact hr l
    · have hk' : ¬ (g l).key = req := by rw [hg]; exact hk
      simp only [List.map_cons, List.find?_cons, hk, hk', decide_False]
      exact ih

theorem get_table_update (ok : Bool) (ctx : tas_ctx) (req : tas_client_req) (id f ls : Nat) :
    table_allocator_sqlite_get_table (table_allocator_sqlite_update_lease ok ctx id f ls).2 req =
      table_allocator_sqlite_get_table ctx req := by
  cases ok
  · rfl
  · simp only [table_allocator_sqlite_update_lease, if_true, table_allocator_sqlite_get_table]
    apply find_key_map
    · intro l; split <;> rfl
    · intro l; split <;> rfl

theorem get_table_insert (ctx : tas_ctx) (req : tas_client_req) (id ls : Nat) :
    table_allocator_sqlite_get_table (table_allocator_sqlite_insert_table true ctx req id ls).2
      req = id := by
  simp [table_allocator_sqlite_insert_table, table_allocator_sqlite_get_table, lease.key]

theorem update_lease_keeps_ids (ctx : tas_ctx) (id f ls : Nat) :
    (table_allocator_sqlite_update_lease true ctx id f ls).2.db_handle.map
        (fun l => (l.key, l.rt_table)) =
      ctx.db_handle.map (fun l => (l.key, l.rt_table)) := by
  simp only [table_allocator_sqlite_update_lease, if_true, List.map_map]
  apply List.map_congr_left
  intro l _
  simp only [Function.comp]
  split <;> rfl

/-- A renewal when the bit of the stored id is busy: only the store is written. -/
theorem handle_req_renew_busy (ctx : tas_ctx) (req : tas_client_req) (now rt ls : Nat)
    (t : List Nat) (hcfg : family_configured ctx req.addr_family = true)
    (ht : family_tables ctx req.addr_family = some t)
    (hl : t.length = ctx.num_table_elements)
    (hget : table_allocator_sqlite_get_table ctx req ≠ 0)
    (hbusy : is_table_free ctx req.addr_family (table_allocator_sqlite_get_table ctx req) =
      some 0) :
    table_allocator_server_clients_handle_req (some now) true ctx req rt ls =
      some ⟨1, (table_allocator_sqlite_update_lease true ctx
          (table_allocator_sqlite_get_table ctx req) req.addr_family
          (now + ctx.table_timeout)).2,
        table_allocator_sqlite_get_table ctx req, (now + ctx.table_timeout) % U32⟩ := by
  rw [handle_req_renew_eq ctx req now rt ls true t hcfg ht hl hget]
  rw [is_table_free_eq ctx _ _ t ht hl] at hbusy
  have hb : bit_at t (table_index ctx (table_allocator_sqlite_get_table ctx req)) = false := by
    by_contra hb
    rw [Bool.not_eq_false] at hb
    rw [hb] at hbusy
    exact absurd hbusy (by decide)
  simp [hb]

/-- After a successful request the context is ready for a renewal of the same
key: the family is still configured, the store answers the granted id for the
key, and the bit of that id is busy. -/
theorem handle_req_success_ready (ctx : tas_ctx) (req : tas_client_req) (clock : Option Nat)
    (db_ok : Bool) (rt ls : Nat) (r1 : req_result) (hwf : ctx.wf)
    (h1 : table_allocator_server_clients_handle_req clock db_ok ctx req rt ls = some r1)
    (hret : r1.ret = 1) :
    family_configured r1.ctx req.addr_family = true ∧
    (∃ t, family_tables r1.ctx req.addr_family = some t ∧
      t.length = r1.ctx.num_table_elements) ∧
    table_allocator_sqlite_get_table r1.ctx req = r1.rt_table ∧
    is_table_free r1.ctx req.addr_family r1.rt_table = some 0 := by
  have ho := hwf.2.2.2.1
  have hn := hwf.2.2.2.2.1
  by_cases hcfg : family_configured ctx req.addr_family = true
  swap
  · unfold table_allocator_server_clients_handle_req at h1
    rw [if_pos (by simpa using hcfg)] at h1
    injection h1 with h1; subst h1
    exact absurd hret Nat.zero_ne_one
  cases clock with
  | none =>
    unfold table_allocator_server_clients_handle_req at h1
    rw [if_neg (by simp [hcfg])] at h1
    injection h1 with h1; subst h1
    exact absurd hret Nat.zero_ne_one
  | some now =>
    obtain ⟨t, ht⟩ := family_configured_some ctx _ hcfg
    obtain ⟨hl, hw⟩ := wf_family ctx hwf _ t ht
    by_cases hget : table_allocator_sqlite_get_table ctx req = 0
    · -- first allocation
      rcases allocate_table_spec ctx req.addr_family t hwf ht with
        ⟨-, ha⟩ | ⟨j, hj, hb, -, ha⟩
      · rw [handle_req_alloc_eq ctx req now rt ls db_ok hcfg hget _ _ ha, if_pos rfl] at h1
        injection h1 with h1; subst h1
        exact absurd hret Nat.zero_ne_one
      · rw [handle_req_alloc_eq ctx req now rt ls db_ok hcfg hget _ _ ha] at h1
        by_cases hjn : j < ctx.num_tables
        swap
        · rw [if_neg hjn, if_pos rfl] at h1
          injection h1 with h1; subst h1
          exact absurd hret Nat.zero_ne_one
        have hjU : j < U32 := Nat.lt_trans hjn hn
        have hlen : j / 32 < t.length := by omega
        rw [if_pos hjn, if_neg (Nat.add_one_ne_zero j)] at h1
        cases db_ok with
        | false =>
          simp only [Bool.false_eq_true, if_false] at h1
          split at h1
          · exact Option.noConfusion h1
          · injection h1 with h1; subst h1
            exact absurd hret Nat.zero_ne_one
        | true =>
          simp only [if_true, set_family_tables_offset, Nat.add_sub_cancel] at h1
          injection h1 with h1; subst h1
          refine ⟨?_, ⟨toggle_at t j, ?_, ?_⟩, ?_, ?_⟩
          · exact family_configured_set ctx _ _ _ hcfg
          · exact family_tables_set_self ctx _ _
          · simp [toggle_at_length, hl, table_allocator_sqlite_insert_table]
          · exact get_table_insert _ _ _ _
          · show is_table_free (table_allocator_sqlite_insert_table true _ req _ _).2 _ _ = _
            rw [is_table_free_insert, is_table_free_set_family _ _ _ _ _
              (by rw [toggle_at_length, hl]),
              if_pos (rfl : family_slot req.addr_family = family_slot req.addr_family),
              table_index_of_offset ctx j ho hjU, bit_at_toggle_at,
              if_pos (⟨rfl, hlen⟩ : j = j ∧ j / 32 < t.length), hb]
            rfl
    · -- renewal
      rw [handle_req_renew_eq ctx req now rt ls db_ok t hcfg ht hl hget] at h1
      cases db_ok with
      | false =>
        simp only [Bool.false_eq_true, if_false] at h1
        injection h1 with h1; subst h1
        exact absurd hret Nat.zero_ne_one
      | true =>
        simp only [if_true] at h1
        injection h1 with h1; subst h1
        by_cases hb : bit_at t (table_index ctx (table_allocator_sqlite_get_table ctx req)) = true
        · have hlen := bit_at_true_lt t _ hb
          simp only [hb, if_true]
          refine ⟨?_, ⟨toggle_at t
            (table_index ctx (table_allocator_sqlite_get_table ctx req)), ?_, ?_⟩, ?_, ?_⟩
          · exact family_configured_set ctx _ _ _ hcfg
          · exact family_tables_set_self ctx _ _
          · simp [toggle_at_length, hl, table_allocator_sqlite_update_lease]
          · rw [get_table_update]
            exact get_table_congr _ _ req (set_family_tables_db _ _ _)
          · rw [is_table_free_update, is_table_free_set_family _ _ _ _ _
              (by rw [toggle_at_length, hl]),
              if_pos (rfl : family_slot req.addr_family = family_slot req.addr_family),
              bit_at_toggle_at,
              if_pos (⟨rfl, hlen⟩ :
                table_index ctx (table_allocator_sqlite_get_table ctx req) =
                  table_index ctx (table_allocator_sqlite_get_table ctx req) ∧
                table_index ctx (table_allocator_sqlite_get_table ctx req) / 32 < t.length), hb]
            rfl
        · rw [Bool.not_eq_true] at hb
          simp only [hb, Bool.false_eq_true, if_false]
          refine ⟨hcfg, ⟨t, ht, hl⟩, get_table_update _ _ _ _ _ _, ?_⟩
          rw [is_table_free_update, is_table_free_eq ctx _ _ t ht hl, hb]
          rfl

/-- C2, counterexample: with `table_offset = 0` the first request of key A
succeeds and grants the id `0`; the store then answers `0` for the key, which
the handler takes for "no lease", and the following request of the same key
succeeds with the different id `1`. -/
theorem handle_req_renewal_changes_id_zero :
    (table_allocator_server_clients_handle_req (some 1) true pool_0_3 key_A 9 9).map
      (fun r => (r.ret, r.rt_table)) = some (1, 0) ∧
    ((table_allocator_server_clients_handle_req (some 1) true pool_0_3 key_A 9 9).bind fun r =>
      (table_allocator_server_clients_handle_req (some 2) true r.ctx key_A 9 9).map
        (fun r' => (r'.ret, r'.rt_table))) = some (1, 1) := by
  decide

/-- C2, amended: in a well-formed context, when a request of key `k` succeeds
and grants a non-zero id `t`, a following request of the same key (clock read
and lease update succeeding) also succeeds and grants `t`; the three bitmaps
are unchanged and the store holds the same keys with the same ids, so only the
stored expiry may differ. -/
theorem handle_req_renewal_idempotent (ctx : tas_ctx) (req : tas_client_req)
    (clock : Option Nat) (db_ok : Bool) (rt_table lease_sec_ptr : Nat) (r1 : req_result)
    (now2 rt_table2 lease_sec_ptr2 : Nat) (hwf : ctx.wf)
    (h1 : table_allocator_server_clients_handle_req clock db_ok ctx req rt_table lease_sec_ptr =
      some r1)
    (hret : r1.ret = 1) (hid : r1.rt_table ≠ 0) :
    ∃ ctx2, table_allocator_server_clients_handle_req (some now2) true r1.ctx req rt_table2
        lease_sec_ptr2 =
        some ⟨1, ctx2, r1.rt_table, (now2 + r1.ctx.table_timeout) % U32⟩ ∧
      ctx2.tables_inet = r1.ctx.tables_inet ∧ ctx2.tables_inet6 = r1.ctx.tables_inet6 ∧
      ctx2.tables_unspec = r1.ctx.tables_unspec ∧
      ctx2.db_handle.map (fun l => (l.key, l.rt_table)) =
        r1.ctx.db_handle.map (fun l => (l.key, l.rt_table)) := by
  obtain ⟨hcfg, ⟨t, ht, hl⟩, hget, hbusy⟩ :=
    handle_req_success_ready ctx req clock db_ok rt_table lease_sec_ptr r1 hwf h1 hret
  have hne : table_allocator_sqlite_get_table r1.ctx req ≠ 0 := by rw [hget]; exact hid
  have h2 := handle_req_renew_busy r1.ctx req now2 rt_table2 lease_sec_ptr2 t hcfg ht hl hne
    (by rw [hget]; exact hbusy)
  rw [hget] at h2
  exact ⟨_, h2, rfl, rfl, rfl, update_lease_keeps_ids _ _ _ _⟩

/-- Witness of the amended C2: in the pool 100..103 key A is granted 100 at
time 1 and keeps 100 at time 5. -/
theorem handle_req_renewal_idempotent_witness :
    (pool_100_103.wf ∧
      table_allocator_server_clients_handle_req (some 1) true pool_100_103 key_A 0 0 =
        some ⟨1, { pool_100_103 with
          tables_inet := some [0xFFFFFFFE]
          db_handle := [lease_of key_A 100 61] }, 100, 61⟩) ∧
    ∃ ctx2, table_allocator_server_clients_handle_req (some 5) true
        { pool_100_103 with
          tables_inet := some [0xFFFFFFFE]
          db_handle := [lease_of key_A 100 61] } key_A 0 0 =
        some ⟨1, ctx2, 100, (5 + 60) % U32⟩ ∧
      ctx2.tables_inet = some [0xFFFFFFFE] ∧ ctx2.tables_inet6 = none ∧
      ctx2.tables_unspec = none ∧
      ctx2.db_handle.map (fun l => (l.key, l.rt_table)) = [(key_A, 100)] :=
  ⟨⟨by decide, by decide⟩,
    handle_req_renewal_idempotent pool_100_103 key_A (some 1) true 0 0
      ⟨1, { pool_100_103 with
          tables_inet := some [0xFFFFFFFE]
          db_handle := [lease_of key_A 100 61] }, 100, 61⟩ 5 0 0
      (by decide) (by decide) rfl (by decide)⟩

/-! ## Flipping one bit and the answers of `is_table_free` -/

theorem family_slot_eq_of_known (f g : Nat)
    (hf : f = AF_INET ∨ f = AF_INET6 ∨ f = AF_UNSPEC)
    (hg : g = AF_INET ∨ g = AF_INET6 ∨ g = AF_UNSPEC)
    (h : family_slot f = family_slot g) : f = g := by
  simp only [family_slot, AF_INET, AF_INET6, AF_UNSPEC] at *
  rcases hf with rfl | rfl | rfl <;> rcases hg with rfl | rfl | rfl <;> simp_all

theorem is_table_free_toggle_other (ctx : tas_ctx) (f id g id' : Nat) (t : List Nat)
    (ht : family_tables ctx f = some t) (hl : t.length = ctx.num_table_elements)
    (ho : ctx.table_offset < U32) (hid : id < U32) (hid' : id' < U32)
    (hne : ¬ (family_slot f = family_slot g ∧ id' = id)) :
    is_table_free (set_family_tables ctx f (toggle_at t (table_index ctx id))) g id' =
      is_table_free ctx g id' := by
  rw [is_table_free_set_family _ _ _ _ _ (by rw [toggle_at_length, hl])]
  by_cases hs : family_slot f = family_slot g
  · rw [if_pos hs]
    have htg : family_tables ctx g = some t := by
      rw [← family_tables_of_slot ctx _ _ hs]; exact ht
    rw [is_table_free_eq ctx g id' t htg hl, bit_at_toggle_at]
    have hidx : table_index ctx id' ≠ table_index ctx id := by
      intro h
      exact hne ⟨hs, table_index_inj ctx _ _ ho hid' hid h⟩
    rw [if_neg (fun h : table_index ctx id' = table_index ctx id ∧
      table_index ctx id / 32 < t.length => hidx h.1)]
  · rw [if_neg hs]

theorem is_table_free_toggle_self (ctx : tas_ctx) (f id : Nat) (t : List Nat)
    (hl : t.length = ctx.num_table_elements)
    (hlt : table_index ctx id / 32 < ctx.num_table_elements) :
    is_table_free (set_family_tables ctx f (toggle_at t (table_index ctx id))) f id =
      some (if bit_at t (table_index ctx id) then 0 else 1) := by
  rw [is_table_free_set_family _ _ _ _ _ (by rw [toggle_at_length, hl]),
    if_pos (rfl : family_slot f = family_slot f), bit_at_toggle_at,
    if_pos (⟨rfl, by omega⟩ : table_index ctx id = table_index ctx id ∧
      table_index ctx id / 32 < t.length)]
  cases bit_at t (table_index ctx id) <;> rfl

theorem is_table_free_one_iff (ctx : tas_ctx) (f id : Nat) (t : List Nat)
    (ht : family_tables ctx f = some t) (hl : t.length = ctx.num_table_elements) :
    is_table_free ctx f id = some 1 ↔ bit_at t (table_index ctx id) = true := by
  rw [is_table_free_eq ctx f id t ht hl]
  cases bit_at t (table_index ctx id) <;> simp

theorem is_table_free_zero_iff (ctx : tas_ctx) (f id : Nat) (t : List Nat)
    (ht : family_tables ctx f = some t) (hl : t.length = ctx.num_table_elements) :
    is_table_free ctx f id = some 0 ↔ bit_at t (table_index ctx id) = false := by
  rw [is_table_free_eq ctx f id t ht hl]
  cases bit_at t (table_index ctx id) <;> simp

/-! ## Start-up recovery -/

theorem fresh_ctx_wf (inet inet6 unspec : Bool) (n num_tables offset timeout : Nat)
    (ho : offset < U32) (hn : num_tables < U32) (he : 32 * n ≤ U32) :
    (fresh_ctx inet inet6 unspec n num_tables offset timeout).wf := by
  have hok : ∀ b : Bool,
      tables_ok n (if b then some (List.replicate n 0xFFFFFFFF) else none) = true := by
    intro b
    cases b
    · rfl
    · rw [if_pos rfl, tables_ok_some]
      refine ⟨List.length_replicate _ _, ?_⟩
      intro w hw
      rw [List.eq_of_mem_replicate hw]
      decide
  exact ⟨hok inet, hok inet6, hok unspec, ho, hn, he⟩

theorem bit_at_replicate_ones (n j : Nat) (hj : j / 32 < n) :
    bit_at (List.replicate n 0xFFFFFFFF) j = true := by
  have hget : (List.replicate n 0xFFFFFFFF)[j / 32]? = some 0xFFFFFFFF := by
    rw [List.getElem?_replicate, if_pos hj]
  rw [bit_at_of_getElem? _ j _ hget]
  have h := Nat.testBit_two_pow_sub_one 32 (j % 32)
  have hlt : j % 32 < 32 := Nat.mod_lt _ (by decide)
  simpa [hlt] using h

theorem fresh_ctx_family_tables (inet inet6 unspec : Bool) (n num_tables offset timeout : Nat)
    (g : Nat) (t : List Nat)
    (ht : family_tables (fresh_ctx inet inet6 unspec n num_tables offset timeout) g = some t) :
    t = List.replicate n 0xFFFFFFFF := by
  simp only [family_tables, fresh_ctx] at ht
  split_ifs at ht <;> exact (Option.some.inj ht).symm

theorem recover_tables_spec : ∀ (leases : List lease) (ctx : tas_ctx), ctx.wf →
    (∀ l ∈ leases, family_configured ctx l.addr_family = true ∧ l.rt_table < U32 ∧
      is_table_free ctx l.addr_family l.rt_table = some 1) →
    leases.Pairwise (fun a b => a.addr_family = b.addr_family → a.rt_table ≠ b.rt_table) →
    ∃ ctx', recover_tables ctx leases = some ctx' ∧
      (∀ l ∈ leases, is_table_free ctx' l.addr_family l.rt_table = some 0) ∧
      (∀ g id, id < U32 →
        (∀ l ∈ leases, ¬ (family_slot l.addr_family = family_slot g ∧ id = l.rt_table)) →
        is_table_free ctx' g id = is_table_free ctx g id)
  | [], ctx, _, _, _ => ⟨ctx, rfl, fun _ h => absurd h (List.not_mem_nil _), fun _ _ _ _ => rfl⟩
  | l :: ls, ctx, hwf, hls, hpw => by
    obtain ⟨hcfg, hid, hfree⟩ := hls l (List.mem_cons_self _ _)
    obtain ⟨t, ht⟩ := family_configured_some ctx _ hcfg
    obtain ⟨hl, hw⟩ := wf_family ctx hwf _ t ht
    have ho := hwf.2.2.2.1
    have hbit := (is_table_free_one_iff ctx _ _ t ht hl).1 hfree
    have hlt : table_index ctx l.rt_table / 32 < ctx.num_table_elements := by
      rw [← hl]; exact bit_at_true_lt t _ hbit
    rw [List.pairwise_cons] at hpw
    obtain ⟨hhead, htail⟩ := hpw
    have hne : ∀ l' ∈ ls,
        ¬ (family_slot l.addr_family = family_slot l'.addr_family ∧
          l'.rt_table = l.rt_table) := by
      intro l' hl' h
      have hcfg' := (hls l' (List.mem_cons_of_mem _ hl')).1
      have hfam := family_slot_eq_of_known _ _ (family_configured_known ctx _ hcfg)
        (family_configured_known ctx _ hcfg') h.1
      exact hhead l' hl' hfam h.2.symm
    have hwf1 : (set_family_tables ctx l.addr_family
        (toggle_at t (table_index ctx l.rt_table))).wf :=
      wf_set_family ctx hwf _ _ (by rw [toggle_at_length, hl]) (toggle_at_words t _ hw)
    obtain ⟨ctx', hrec, hbusy, hframe⟩ := recover_tables_spec ls _ hwf1
      (fun l' hl' => by
        obtain ⟨hcfg', hid', hfree'⟩ := hls l' (List.mem_cons_of_mem _ hl')
        refine ⟨family_configured_set ctx _ _ _ hcfg', hid', ?_⟩
        rw [is_table_free_toggle_other ctx _ _ _ _ t ht hl ho hid hid' (hne l' hl')]
        exact hfree') htail
    refine ⟨ctx', ?_, ?_, ?_⟩
    · have hset : table_allocator_server_clients_set_table ctx l.addr_family l.rt_table =
          some (set_family_tables ctx l.addr_family
            (toggle_at t (table_index ctx l.rt_table))) := set_table_eq ctx _ _ t ht hl
      simp only [recover_tables, for_each_lease, hset]
      exact hrec
    · intro l' hl'
      rcases List.mem_cons.1 hl' with rfl | hl'
      · rw [hframe _ _ hid (fun l'' hl'' h => hne l'' hl'' ⟨h.1.symm, h.2.symm⟩),
          is_table_free_toggle_self ctx _ _ t hl hlt, hbit]
        rfl
      · exact hbusy l' hl'
    · intro g id hid' hno
      rw [hframe g id hid' (fun l' hl' => hno l' (List.mem_cons_of_mem _ hl'))]
      exact is_table_free_toggle_other ctx _ _ _ _ t ht hl ho hid hid'
        (fun h => hno l (List.mem_cons_self _ _) ⟨h.1, h.2⟩)

/-- C6: start-up recovery on a fresh pool. When the bitmaps cover the range
(`num_tables ≤ 32 * num_table_elements`) and every lease of the store has a
configured family and an id `table_offset + j`, `j < num_tables`, with the ids
pairwise distinct within a family, one `table_allocator_server_clients_set_table`
per lease returns, afterwards the id of every lease is busy, and every other
in-range id of every configured family is still free. -/
theorem recover_tables_marks_exactly_leases (inet inet6 unspec : Bool)
    (num_table_elements num_tables table_offset table_timeout : Nat) (leases : List lease)
    (hoff : table_offset < U32) (hnum : num_tables < U32)
    (helems : 32 * num_table_elements ≤ U32) (hcov : num_tables ≤ 32 * num_table_elements)
    (hfam : ∀ l ∈ leases, family_configured
      (fresh_ctx inet inet6 unspec num_table_elements num_tables table_offset table_timeout)
      l.addr_family = true)
    (hrange : ∀ l ∈ leases, ∃ j, j < num_tables ∧ l.rt_table = (table_offset + j) % U32)
    (hdistinct : leases.Pairwise
      (fun a b => a.addr_family = b.addr_family → a.rt_table ≠ b.rt_table)) :
    ∃ ctx', recover_tables
        (fresh_ctx inet inet6 unspec num_table_elements num_tables table_offset table_timeout)
        leases = some ctx' ∧
      (∀ l ∈ leases, is_table_free ctx' l.addr_family l.rt_table = some 0) ∧
      (∀ g j, family_configured
          (fresh_ctx inet inet6 unspec num_table_elements num_tables table_offset table_timeout)
          g = true → j < num_tables →
        (∀ l ∈ leases, ¬ (l.addr_family = g ∧ l.rt_table = (table_offset + j) % U32)) →
        is_table_free ctx' g ((table_offset + j) % U32) = some 1) := by
  have hwf := fresh_ctx_wf inet inet6 unspec num_table_elements num_tables table_offset
    table_timeout hoff hnum helems
  have hfresh : ∀ g j, family_configured
      (fresh_ctx inet inet6 unspec num_table_elements num_tables table_offset table_timeout)
      g = true → j < num_tables →
      is_table_free
        (fresh_ctx inet inet6 unspec num_table_elements num_tables table_offset table_timeout)
        g ((table_offset + j) % U32) = some 1 := by
    intro g j hg hj
    obtain ⟨t, ht⟩ := family_configured_some _ _ hg
    obtain ⟨hl, -⟩ := wf_family _ hwf _ t ht
    rw [is_table_free_one_iff _ _ _ t ht hl]
    have hidx := table_index_of_offset
      (fresh_ctx inet inet6 unspec num_table_elements num_tables table_offset table_timeout)
      j hoff (Nat.lt_trans hj hnum)
    have hidx' : table_index
        (fresh_ctx inet inet6 unspec num_table_elements num_tables table_offset table_timeout)
        ((table_offset + j) % U32) = j := hidx
    rw [hidx', fresh_ctx_family_tables _ _ _ _ _ _ _ _ t ht]
    exact bit_at_replicate_ones _ _ (by omega)
  obtain ⟨ctx', hrec, hbusy, hframe⟩ := recover_tables_spec leases _ hwf
    (fun l hl => by
      obtain ⟨j, hj, hid⟩ := hrange l hl
      refine ⟨hfam l hl, ?_, ?_⟩
      · rw [hid]; exact Nat.mod_lt _ (by decide)
      · rw [hid]; exact hfresh _ j (hfam l hl) hj) hdistinct
  refine ⟨ctx', hrec, hbusy, ?_⟩
  intro g j hg hj hno
  rw [hframe g _ (Nat.mod_lt _ (by decide)) ?_]
  · exact hfresh g j hg hj
  · intro l hl h
    have hfam' := family_slot_eq_of_known _ _ (family_configured_known _ _ (hfam l hl))
      (family_configured_known _ _ hg) h.1
    exact hno l hl ⟨hfam', h.2.symm⟩

/-- Witness of C6: the pool 100..103 is recovered from a store with leases on
101 and 103. -/
theorem recover_tables_marks_exactly_leases_witness :
    ∃ ctx', recover_tables (fresh_ctx true false false 1 4 100 60)
        [lease_of key_B 101 61, lease_of key_D 103 61] = some ctx' ∧
      (∀ l ∈ [lease_of key_B 101 61, lease_of key_D 103 61],
        is_table_free ctx' l.addr_family l.rt_table = some 0) ∧
      (∀ g j, family_configured (fresh_ctx true false false 1 4 100 60) g = true → j < 4 →
        (∀ l ∈ [lease_of key_B 101 61, lease_of key_D 103 61],
          ¬ (l.addr_family = g ∧ l.rt_table = (100 + j) % U32)) →
        is_table_free ctx' g ((100 + j) % U32) = some 1) :=
  recover_tables_marks_exactly_leases true false false 1 4 100 60
    [lease_of key_B 101 61, lease_of key_D 103 61] (by decide) (by decide) (by decide)
    (by decide) (by decide)
    (by
      intro l hl
      rcases List.mem_cons.1 hl with rfl | hl
      · exact ⟨1, by decide, by decide⟩
      · rcases List.mem_cons.1 hl with rfl | hl
        · exact ⟨3, by decide, by decide⟩
        · exact absurd hl (List.not_mem_nil _))
    (by decide)

/-! ## The invariant is kept by every event -/

theorem leases_unique_forall (ls : List lease) (h : leases_unique ls) (a b : lease)
    (ha : a ∈ ls) (hb : b ∈ ls) (hab : a ≠ b) :
    a.addr_family = b.addr_family → a.rt_table ≠ b.rt_table := by
  have hsym : Symmetric
      (fun a b : lease => a.addr_family = b.addr_family → a.rt_table ≠ b.rt_table) := by
    intro x y hxy hfam hrt
    exact hxy hfam.symm hrt.symm
  exact List.Pairwise.forall hsym h ha hb hab

theorem lease_held_toggle (ctx : tas_ctx) (f id : Nat) (t : List Nat) (l : lease)
    (hwf : ctx.wf) (ht : family_tables ctx f = some t) (hid : id < U32)
    (hf : f = AF_INET ∨ f = AF_INET6 ∨ f = AF_UNSPEC) (hheld : lease_held ctx l)
    (hne : l.addr_family = f → l.rt_table ≠ id) :
    lease_held (set_family_tables ctx f (toggle_at t (table_index ctx id))) l := by
  obtain ⟨hcfg, hlid, hidx, hbusy⟩ := hheld
  obtain ⟨hl, -⟩ := wf_family ctx hwf _ t ht
  refine ⟨family_configured_set ctx _ _ _ hcfg, hlid, by simpa using hidx, ?_⟩
  rw [is_table_free_toggle_other ctx f id _ _ t ht hl hwf.2.2.2.1 hid hlid]
  · exact hbusy
  · intro h
    have hfam := family_slot_eq_of_known _ _ hf (family_configured_known ctx _ hcfg) h.1
    exact hne hfam.symm h.2

theorem get_table_lease (ctx : tas_ctx) (req : tas_client_req)
    (h : table_allocator_sqlite_get_table ctx req ≠ 0) :
    ∃ l ∈ ctx.db_handle, l.key = req ∧
      l.rt_table = table_allocator_sqlite_get_table ctx req := by
  unfold table_allocator_sqlite_get_table at h ⊢
  cases hf : ctx.db_handle.find? (fun l => decide (l.key = req)) with
  | none => rw [hf] at h; exact absurd rfl h
  | some l =>
    refine ⟨l, List.mem_of_find?_eq_some hf, ?_, rfl⟩
    simpa using List.find?_some hf

theorem lease_key_family (l : lease) (req : tas_client_req) (h : l.key = req) :
    l.addr_family = req.addr_family := by
  rw [← h]; rfl

theorem wf_toggle (ctx : tas_ctx) (f j : Nat) (t : List Nat) (hwf : ctx.wf)
    (ht : family_tables ctx f = some t) : (set_family_tables ctx f (toggle_at t j)).wf := by
  obtain ⟨hl, hw⟩ := wf_family ctx hwf _ t ht
  exact wf_set_family ctx hwf _ _ (by rw [toggle_at_length, hl]) (toggle_at_words t _ hw)

theorem server_inv_release (ctx : tas_ctx) (req : tas_client_req) (db_ok : Bool)
    (hinv : server_inv ctx) :
    ∃ r, table_allocator_server_clients_handle_release db_ok ctx req = some r ∧
      server_inv r.2 := by
  obtain ⟨hwf, hheld, huniq⟩ := hinv
  by_cases hget : table_allocator_sqlite_get_table ctx req = 0
  · refine ⟨(1, ctx), ?_, hwf, hheld, huniq⟩
    unfold table_allocator_server_clients_handle_release
    simp [hget]
  · obtain ⟨l0, hl0, hkey, hrt⟩ := get_table_lease ctx req hget
    have hfam0 := lease_key_family l0 req hkey
    unfold table_allocator_server_clients_handle_release
    simp only [hget, if_false]
    cases db_ok with
    | false =>
      refine ⟨(0, ctx), ?_, hwf, hheld, huniq⟩
      simp [table_allocator_sqlite_remove_table]
    | true =>
      obtain ⟨hcfg, hid, hidx, hbusy⟩ := hheld l0 hl0
      rw [hfam0] at hcfg
      obtain ⟨t, ht⟩ := family_configured_some ctx _ hcfg
      obtain ⟨hl, hw⟩ := wf_family ctx hwf _ t ht
      have hrem : table_allocator_sqlite_remove_table true ctx req =
          (1, { ctx with db_handle := ctx.db_handle.filter (fun l => !decide (l.key = req)) }) :=
        rfl
      rw [hrem]
      simp only [ne_eq, Nat.one_ne_zero, not_false_eq_true, if_true]
      have hrel := release_table_eq
        { ctx with db_handle := ctx.db_handle.filter (fun l => !decide (l.key = req)) }
        req.addr_family (table_allocator_sqlite_get_table ctx req) t ht
        (by rw [hl, ← hrt]; exact hidx)
      rw [hrel]
      refine ⟨(1, _), rfl, ?_, ?_, ?_⟩
      · exact wf_toggle { ctx with db_handle := _ } _ _ t hwf ht
      · intro l hl'
        have hl'' : l ∈ ctx.db_handle.filter (fun l => !decide (l.key = req)) := by
          simpa using hl'
        obtain ⟨hmem, hk⟩ := List.mem_filter.1 hl''
        have hk' : l.key ≠ req := by simpa using hk
        have hne : l ≠ l0 := by
          intro h; rw [h] at hk'; exact hk' hkey
        have := lease_held_toggle
          { ctx with db_handle := ctx.db_handle.filter (fun l => !decide (l.key = req)) }
          req.addr_family (table_allocator_sqlite_get_table ctx req) t l hwf ht
          (by rw [← hrt]; exact hid) (family_configured_known ctx _ hcfg) (hheld l hmem)
          (by
            intro hf
            rw [← hrt]
            exact leases_unique_forall _ huniq l l0 hmem hl0 hne (by rw [hf, hfam0]))
        exact this
      · have : leases_unique (ctx.db_handle.filter (fun l => !decide (l.key = req))) :=
          List.Pairwise.filter _ huniq
        simpa using this

theorem reap_fold_inv : ∀ (dead : List lease) (ctx : tas_ctx), ctx.wf →
    (∀ l ∈ dead ++ ctx.db_handle, lease_held ctx l) → leases_unique (dead ++ ctx.db_handle) →
    ∃ c, for_each_lease release_dead_lease dead ctx = some c ∧ server_inv c
  | [], ctx, hwf, hheld, huniq => ⟨ctx, rfl, hwf, by simpa using hheld, by simpa using huniq⟩
  | e :: es, ctx, hwf, hheld, huniq => by
    obtain ⟨hcfg, hid, hidx, hbusy⟩ := hheld e (by simp)
    obtain ⟨t, ht⟩ := family_configured_some ctx _ hcfg
    obtain ⟨hl, hw⟩ := wf_family ctx hwf _ t ht
    have hrel := release_table_eq ctx e.addr_family e.rt_table t ht (by rw [hl]; exact hidx)
    have hstep : release_dead_lease ctx e.addr_family e.rt_table =
        some (set_family_tables ctx e.addr_family (toggle_at t (table_index ctx e.rt_table))) := by
      unfold release_dead_lease
      rw [hbusy]
      simp only [if_true]
      exact hrel
    rw [List.cons_append] at huniq
    unfold leases_unique at huniq
    rw [List.pairwise_cons] at huniq
    obtain ⟨hhead, htail⟩ := huniq
    obtain ⟨c, hc, hinv⟩ := reap_fold_inv es
      (set_family_tables ctx e.addr_family (toggle_at t (table_index ctx e.rt_table)))
      (wf_toggle ctx _ _ t hwf ht)
      (fun l hl' => by
        have hl'' : l ∈ es ++ ctx.db_handle := by simpa using hl'
        exact lease_held_toggle ctx _ _ t l hwf ht hid (family_configured_known ctx _ hcfg)
          (hheld l (by simp [List.mem_append] at hl'' ⊢; tauto))
          (fun hf hrt => hhead l hl'' hf.symm hrt.symm))
      (by simpa [leases_unique] using htail)
    refine ⟨c, ?_, hinv⟩
    simp only [for_each_lease, hstep]
    exact hc

theorem server_inv_reap (ctx : tas_ctx) (clock : Option Nat) (hinv : server_inv ctx) :
    ∃ c, table_allocator_server_clients_delete_dead_leases clock ctx = some c ∧
      server_inv c := by
  cases clock with
  | none => exact ⟨ctx, rfl, hinv⟩
  | some now =>
    obtain ⟨hwf, hheld, huniq⟩ := hinv
    unfold table_allocator_server_clients_delete_dead_leases
      table_allocator_sqlite_delete_dead_leases
    apply reap_fold_inv
    · exact hwf
    · intro l hl
      have hmem : l ∈ ctx.db_handle := by
        rcases List.mem_append.1 hl with h | h
        · exact (List.mem_filter.1 h).1
        · exact (List.mem_filter.1 h).1
      exact hheld l hmem
    · unfold leases_unique
      rw [List.pairwise_append]
      refine ⟨List.Pairwise.filter _ huniq, List.Pairwise.filter _ huniq, ?_⟩
      intro a ha b hb
      obtain ⟨ha1, ha2⟩ := List.mem_filter.1 ha
      obtain ⟨hb1, hb2⟩ := List.mem_filter.1 hb
      have hab : a ≠ b := by
        intro h
        rw [h] at ha2
        rw [ha2] at hb2
        exact absurd hb2 (by decide)
      exact leases_unique_forall _ huniq a b ha1 hb1 hab

theorem release_after_allocate (ctx : tas_ctx) (f j : Nat) (t : List Nat) (hwf : ctx.wf)
    (ht : family_tables ctx f = some t) (hj : j < 32 * ctx.num_table_elements) :
    release_table (set_family_tables ctx f (toggle_at t j)) f
      ((ctx.table_offset + j) % U32) = some ctx := by
  obtain ⟨hl, -⟩ := wf_family ctx hwf _ t ht
  have hjU : j < U32 := Nat.lt_of_lt_of_le hj hwf.2.2.2.2.2
  rw [release_table_eq _ _ _ (toggle_at t j) (family_tables_set_self _ _ _)]
  · rw [table_index_set_family, table_index_of_offset ctx j hwf.2.2.2.1 hjU,
      toggle_at_toggle_at, set_family_tables_twice, set_family_tables_same ctx _ t ht]
  · rw [table_index_set_family, table_index_of_offset ctx j hwf.2.2.2.1 hjU,
      toggle_at_length, hl]
    omega

theorem server_inv_update (ctx : tas_ctx) (id f ls : Nat) (ok : Bool) (hinv : server_inv ctx) :
    server_inv (table_allocator_sqlite_update_lease ok ctx id f ls).2 := by
  cases ok with
  | false => exact hinv
  | true =>
    obtain ⟨hwf, hheld, huniq⟩ := hinv
    refine ⟨hwf, ?_, ?_⟩
    · intro l hl
      have hl' : l ∈ ctx.db_handle.map (fun l =>
          if l.rt_table = id ∧ l.addr_family = f then { l with lease_expires := ls } else l) :=
        hl
      obtain ⟨l0, hl0, rfl⟩ := List.mem_map.1 hl'
      have h0 := hheld l0 hl0
      split
      · exact h0
      · exact h0
    · show leases_unique (ctx.db_handle.map (fun l =>
          if l.rt_table = id ∧ l.addr_family = f then { l with lease_expires := ls } else l))
      unfold leases_unique at huniq ⊢
      rw [List.pairwise_map]
      refine List.Pairwise.imp ?_ huniq
      intro a b hab
      have ha : ∀ x : lease,
          (if x.rt_table = id ∧ x.addr_family = f then { x with lease_expires := ls }
            else x).addr_family = x.addr_family ∧
          (if x.rt_table = id ∧ x.addr_family = f then { x with lease_expires := ls }
            else x).rt_table = x.rt_table := by
        intro x; split <;> exact ⟨rfl, rfl⟩
      rw [(ha a).1, (ha a).2, (ha b).1, (ha b).2]
      exact hab

theorem server_inv_request (ctx : tas_ctx) (req : tas_client_req) (clock : Option Nat)
    (db_ok : Bool) (rt ls : Nat) (hinv : server_inv ctx) :
    ∃ r, table_allocator_server_clients_handle_req clock db_ok ctx req rt ls = some r ∧
      server_inv r.ctx := by
  by_cases hcfg : family_configured ctx req.addr_family = true
  swap
  · refine ⟨⟨0, ctx, rt, ls⟩, ?_, hinv⟩
    unfold table_allocator_server_clients_handle_req
    rw [if_pos (by simpa using hcfg)]
  cases clock with
  | none =>
    refine ⟨⟨0, ctx, rt, ls⟩, ?_, hinv⟩
    unfold table_allocator_server_clients_handle_req
    rw [if_neg (by simp [hcfg])]
  | some now =>
    obtain ⟨hwf, hheld, huniq⟩ := hinv
    obtain ⟨t, ht⟩ := family_configured_some ctx _ hcfg
    obtain ⟨hl, hw⟩ := wf_family ctx hwf _ t ht
    have ho := hwf.2.2.2.1
    have hknown := family_configured_known ctx _ hcfg
    by_cases hget : table_allocator_sqlite_get_table ctx req = 0
    · rcases allocate_table_spec ctx req.addr_family t hwf ht with
        ⟨-, ha⟩ | ⟨j, hj, hb, -, ha⟩
      · rw [handle_req_alloc_eq ctx req now rt ls db_ok hcfg hget _ _ ha, if_pos rfl]
        exact ⟨_, rfl, hwf, hheld, huniq⟩
      · have hjU : j < U32 := Nat.lt_of_lt_of_le hj hwf.2.2.2.2.2
        have hidx : table_index ctx ((ctx.table_offset + j) % U32) = j :=
          table_index_of_offset ctx j ho hjU
        have hidU : (ctx.table_offset + j) % U32 < U32 := Nat.mod_lt _ (by decide)
        -- no stored lease of this family holds the id of bit `j`
        have hnot : ∀ l ∈ ctx.db_handle, l.addr_family = req.addr_family →
            l.rt_table ≠ (ctx.table_offset + j) % U32 := by
          intro l hl' hf hrt
          have hbusy := (hheld l hl').2.2.2
          rw [hf, hrt, is_table_free_zero_iff ctx _ _ t ht hl, hidx, hb] at hbusy
          exact absurd hbusy (by decide)
        have hheld1 : ∀ l ∈ ctx.db_handle,
            lease_held (set_family_tables ctx req.addr_family (toggle_at t j)) l := by
          intro l hl'
          have := lease_held_toggle ctx req.addr_family ((ctx.table_offset + j) % U32) t l hwf
            ht hidU hknown (hheld l hl') (hnot l hl')
          rw [hidx] at this
          exact this
        rw [handle_req_alloc_eq ctx req now rt ls db_ok hcfg hget _ _ ha]
        by_cases hjn : j < ctx.num_tables
        swap
        · rw [if_neg hjn, if_pos rfl]
          exact ⟨_, rfl, wf_toggle ctx _ _ t hwf ht, by simpa using hheld1,
            by simpa using huniq⟩
        rw [if_pos hjn, if_neg (Nat.add_one_ne_zero j)]
        simp only [set_family_tables_offset, Nat.add_sub_cancel]
        cases db_ok with
        | false =>
          simp only [Bool.false_eq_true, if_false]
          rw [release_after_allocate ctx _ j t hwf ht hj]
          exact ⟨_, rfl, hwf, hheld, huniq⟩
        | true =>
          simp only [if_true]
          refine ⟨_, rfl, ?_⟩
          show server_inv
            { set_family_tables ctx req.addr_family (toggle_at t j) with
              db_handle := lease_of req ((ctx.table_offset + j) % U32)
                (now + ctx.table_timeout) ::
                (set_family_tables ctx req.addr_family (toggle_at t j)).db_handle.filter
                  (fun l => !decide (l.key = req)) }
          rw [set_family_tables_db]
          refine ⟨wf_toggle ctx _ _ t hwf ht, ?_, ?_⟩
          · intro l hl'
            have hl'' : l ∈ lease_of req ((ctx.table_offset + j) % U32)
                (now + ctx.table_timeout) ::
                ctx.db_handle.filter (fun l => !decide (l.key = req)) := hl'
            show lease_held (set_family_tables ctx req.addr_family (toggle_at t j)) l
            rcases List.mem_cons.1 hl'' with rfl | hmem
            · refine ⟨family_configured_set ctx _ _ _ hcfg, hidU, ?_, ?_⟩
              · show table_index (set_family_tables ctx req.addr_family (toggle_at t j))
                  ((ctx.table_offset + j) % U32) / 32 <
                  (set_family_tables ctx req.addr_family (toggle_at t j)).num_table_elements
                rw [table_index_set_family, hidx, set_family_tables_elements]
                omega
              · show is_table_free (set_family_tables ctx req.addr_family (toggle_at t j))
                  req.addr_family ((ctx.table_offset + j) % U32) = some 0
                have := is_table_free_toggle_self ctx req.addr_family
                  ((ctx.table_offset + j) % U32) t hl (by rw [hidx]; omega)
                rw [hidx] at this
                rw [this, hb]
                rfl
            · exact hheld1 l (List.mem_filter.1 hmem).1
          · show leases_unique (lease_of req ((ctx.table_offset + j) % U32)
                (now + ctx.table_timeout) ::
                ctx.db_handle.filter (fun l => !decide (l.key = req)))
            unfold leases_unique
            rw [List.pairwise_cons]
            refine ⟨?_, List.Pairwise.filter _ huniq⟩
            intro l hmem hf hrt
            exact hnot l (List.mem_filter.1 hmem).1 hf.symm hrt.symm
    · obtain ⟨l0, hl0, hkey, hrt⟩ := get_table_lease ctx req hget
      have hbusy := (hheld l0 hl0).2.2.2
      rw [lease_key_family l0 req hkey, hrt, is_table_free_zero_iff ctx _ _ t ht hl] at hbusy
      rw [handle_req_renew_eq ctx req now rt ls db_ok t hcfg ht hl hget]
      simp only [hbusy, Bool.false_eq_true, if_false]
      cases db_ok with
      | false => exact ⟨_, rfl, hwf, hheld, huniq⟩
      | true => exact ⟨_, rfl, server_inv_update ctx _ _ _ true ⟨hwf, hheld, huniq⟩⟩

theorem server_inv_step (ctx : tas_ctx) (e : server_event) (hinv : server_inv ctx) :
    ∃ s, server_step ctx e = some s ∧ server_inv s := by
  cases e with
  | request req clock db_ok =>
    obtain ⟨r, hr, hi⟩ := server_inv_request ctx req clock db_ok 0 0 hinv
    exact ⟨r.ctx, by simp [server_step, hr], hi⟩
  | release req db_ok =>
    obtain ⟨r, hr, hi⟩ := server_inv_release ctx req db_ok hinv
    exact ⟨r.2, by simp [server_step, hr], hi⟩
  | reap clock => exact server_inv_reap ctx clock hinv

theorem server_inv_run : ∀ (events : List server_event) (ctx : tas_ctx), server_inv ctx →
    ∃ s, server_run ctx events = some s ∧ server_inv s
  | [], ctx, hinv => ⟨ctx, rfl, hinv⟩
  | e :: es, ctx, hinv => by
    obtain ⟨s1, h1, hi1⟩ := server_inv_step ctx e hinv
    obtain ⟨s, h, hi⟩ := server_inv_run es s1 hi1
    exact ⟨s, by simp only [server_run, h1]; exact h, hi⟩

/-- C1: from a fresh pool (all words all ones, empty store) whose configuration
fits the C types, every finite sequence of requests, releases and reapings, with
any outcomes of the clock reads and of the durable writes, runs without touching
memory outside the bitmaps and ends in a context in which no two stored leases
of the same address family hold the same table id, and the id of every stored
lease has a bit inside the bitmap which is busy (`is_table_free` returns `0`). -/
theorem reachable_leases_unique_and_busy (inet inet6 unspec : Bool)
    (num_table_elements num_tables table_offset table_timeout : Nat)
    (hoff : table_offset < U32) (hnum : num_tables < U32)
    (helems : 32 * num_table_elements ≤ U32) (events : List server_event) :
    ∃ s, server_run
        (fresh_ctx inet inet6 unspec num_table_elements num_tables table_offset table_timeout)
        events = some s ∧
      s.db_handle.Pairwise
        (fun a b => a.addr_family = b.addr_family → a.rt_table ≠ b.rt_table) ∧
      ∀ l ∈ s.db_handle,
        table_index s l.rt_table / 32 < s.num_table_elements ∧
        is_table_free s l.addr_family l.rt_table = some 0 := by
  have h0 : server_inv
      (fresh_ctx inet inet6 unspec num_table_elements num_tables table_offset table_timeout) :=
    ⟨fresh_ctx_wf _ _ _ _ _ _ _ hoff hnum helems,
      fun l hl => absurd hl (List.not_mem_nil _), List.Pairwise.nil⟩
  obtain ⟨s, hs, -, hheld, huniq⟩ := server_inv_run events _ h0
  exact ⟨s, hs, huniq, fun l hl => ⟨(hheld l hl).2.2.1, (hheld l hl).2.2.2⟩⟩

/-- Witness of C1: the pool 100..103 under requests of A, B, C, a release of A, a
refused insert for D and a reaping at time 61. -/
theorem reachable_leases_unique_and_busy_witness :
    ((100 : Nat) < U32 ∧ (4 : Nat) < U32 ∧ 32 * 1 ≤ U32) ∧
    ∃ s, server_run (fresh_ctx true false false 1 4 100 60)
        [.request key_A (some 1) true, .request key_B (some 1) true, .release key_A true,
          .request key_C (some 2) true, .request key_D (some 2) false, .reap (some 61)] =
        some s ∧
      s.db_handle.Pairwise
        (fun a b => a.addr_family = b.addr_family → a.rt_table ≠ b.rt_table) ∧
      ∀ l ∈ s.db_handle,
        table_index s l.rt_table / 32 < s.num_table_elements ∧
        is_table_free s l.addr_family l.rt_table = some 0 :=
  ⟨by decide, reachable_leases_unique_and_busy true false false 1 4 100 60 (by decide)
    (by decide) (by decide) _⟩

/-! ## Idempotent release -/

/-- C4: a release for a key without a lease returns `1` and leaves the whole
context (pool and store) as it was, whatever the store would answer to a delete;
whenever a first release of a key with the durable delete succeeding has
returned, it returned `1`, and a second release of the same key returns `1` and
leaves the context of the first release unchanged; and in every context that
satisfies the invariant of the server loop the first release does return. -/
theorem handle_release_idempotent (ctx : tas_ctx) (req : tas_client_req) :
    ((∀ l ∈ ctx.db_handle, l.key ≠ req) → ∀ db_ok,
      table_allocator_server_clients_handle_release db_ok ctx req = some (1, ctx)) ∧
    (∀ r1 ctx1, table_allocator_server_clients_handle_release true ctx req = some (r1, ctx1) →
      r1 = 1 ∧ ∀ db_ok,
        table_allocator_server_clients_handle_release db_ok ctx1 req = some (1, ctx1)) ∧
    (server_inv ctx →
      ∃ ctx1, table_allocator_server_clients_handle_release true ctx req = some (1, ctx1)) := by
  have hnone : ∀ (c : tas_ctx) (db_ok : Bool), table_allocator_sqlite_get_table c req = 0 →
      table_allocator_server_clients_handle_release db_ok c req = some (1, c) := by
    intro c db_ok h
    unfold table_allocator_server_clients_handle_release
    simp [h]
  have htwice : ∀ r1 ctx1,
      table_allocator_server_clients_handle_release true ctx req = some (r1, ctx1) →
      r1 = 1 ∧ ∀ db_ok,
        table_allocator_server_clients_handle_release db_ok ctx1 req = some (1, ctx1) := by
    intro r1 ctx1 h1
    by_cases hget : table_allocator_sqlite_get_table ctx req = 0
    · rw [hnone ctx true hget] at h1
      injection h1 with h1
      injection h1 with hr hc
      subst hr; subst hc
      exact ⟨rfl, fun db_ok => hnone ctx db_ok hget⟩
    · unfold table_allocator_server_clients_handle_release at h1
      simp only [hget, if_false] at h1
      have hrem : (table_allocator_sqlite_remove_table true ctx req).1 ≠ 0 := by
        simp [table_allocator_sqlite_remove_table]
      rw [if_pos hrem] at h1
      cases hrel : release_table (table_allocator_sqlite_remove_table true ctx req).2
          req.addr_family (table_allocator_sqlite_get_table ctx req) with
      | none => rw [hrel] at h1; exact Option.noConfusion h1
      | some c =>
        rw [hrel] at h1
        injection h1 with h1
        injection h1 with hr hc
        subst hr; subst hc
        refine ⟨rfl, fun db_ok => hnone c db_ok ?_⟩
        rw [get_table_congr _ _ req (release_table_db _ _ _ _ hrel)]
        exact get_table_after_remove ctx req
  refine ⟨fun h db_ok => hnone ctx db_ok (get_table_of_no_lease ctx req h), htwice, ?_⟩
  intro hinv
  obtain ⟨r, hr, -⟩ := server_inv_release ctx req true hinv
  obtain ⟨r1, ctx1⟩ := r
  obtain ⟨h1, -⟩ := htwice r1 ctx1 hr
  subst h1
  exact ⟨ctx1, hr⟩

/-- Witness of C4: key E has no lease in the full pool 100..103; key A has one,
its first release frees id 100 and the second changes nothing. -/
theorem handle_release_idempotent_witness :
    table_allocator_server_clients_handle_release false pool_100_103_full key_E =
      some (1, pool_100_103_full) ∧
    table_allocator_server_clients_handle_release true pool_100_103_full key_A =
      some (1, pool_100_103_BCD) ∧
    table_allocator_server_clients_handle_release true pool_100_103_BCD key_A =
      some (1, pool_100_103_BCD) :=
  ⟨(handle_release_idempotent pool_100_103_full key_E).1 (by decide) false, by decide,
    ((handle_release_idempotent pool_100_103_full key_A).2.1 1 pool_100_103_BCD
      (by decide)).2 true⟩

/-! ## Release frees a busy id -/

theorem in_range_index (ctx : tas_ctx) (j : Nat) (hwf : ctx.wf) (hj : j < ctx.num_tables) :
    table_index ctx ((ctx.table_offset + j) % U32) = j :=
  table_index_of_offset ctx j hwf.2.2.2.1 (Nat.lt_trans hj hwf.2.2.2.2.1)

/-- C11, counterexample: in the fresh pool 100..103 the id 100 is free;
`release_table` for id 100 flips its bit, and the id is busy afterwards. -/
theorem release_table_takes_free_id :
    is_table_free pool_100_103 AF_INET 100 = some 1 ∧
    release_table pool_100_103 AF_INET 100 =
      some { pool_100_103 with tables_inet := some [0xFFFFFFFE] } ∧
    is_table_free { pool_100_103 with tables_inet := some [0xFFFFFFFE] } AF_INET 100 =
      some 0 := by
  decide

/-- C11, amended: in a well-formed context whose bitmaps cover the range, for a
configured family and an id `table_offset + j`, `j < num_tables`, whose bit is
busy before the call, `release_table` returns and the bit of the id is free
afterwards (`is_table_free` returns `1`). -/
theorem release_table_frees_busy_id (ctx : tas_ctx) (addr_family j : Nat) (hwf : ctx.wf)
    (hcfg : family_tables ctx addr_family ≠ none)
    (hcov : ctx.num_tables ≤ 32 * ctx.num_table_elements) (hj : j < ctx.num_tables)
    (hbusy : is_table_free ctx addr_family ((ctx.table_offset + j) % U32) = some 0) :
    ∃ ctx', release_table ctx addr_family ((ctx.table_offset + j) % U32) = some ctx' ∧
      is_table_free ctx' addr_family ((ctx.table_offset + j) % U32) = some 1 := by
  obtain ⟨t, ht⟩ := Option.ne_none_iff_exists'.1 hcfg
  obtain ⟨hl, -⟩ := wf_family ctx hwf addr_family t ht
  have hidx := in_range_index ctx j hwf hj
  have hlt : table_index ctx ((ctx.table_offset + j) % U32) / 32 < ctx.num_table_elements := by
    rw [hidx]; omega
  refine ⟨_, release_table_eq ctx _ _ t ht (by rw [hl]; exact hlt), ?_⟩
  rw [is_table_free_toggle_self ctx _ _ t hl hlt]
  rw [is_table_free_zero_iff ctx _ _ t ht hl] at hbusy
  rw [hbusy]
  rfl

/-- Witness of the amended C11: id 101 of the pool in which key B holds 101. -/
theorem release_table_frees_busy_id_witness :
    (pool_100_103_B.wf ∧ family_tables pool_100_103_B AF_INET ≠ none ∧
      pool_100_103_B.num_tables ≤ 32 * pool_100_103_B.num_table_elements ∧
      1 < pool_100_103_B.num_tables ∧
      is_table_free pool_100_103_B AF_INET ((pool_100_103_B.table_offset + 1) % U32) =
        some 0) ∧
    ∃ ctx', release_table pool_100_103_B AF_INET ((pool_100_103_B.table_offset + 1) % U32) =
        some ctx' ∧
      is_table_free ctx' AF_INET ((pool_100_103_B.table_offset + 1) % U32) = some 1 :=
  ⟨by decide, release_table_frees_busy_id pool_100_103_B AF_INET 1 (by decide) (by decide)
    (by decide) (by decide) (by decide)⟩

/-! ## Requests of a family that is not served -/

theorem family_configured_false_iff (ctx : tas_ctx) (f : Nat) :
    family_configured ctx f = false ↔
      ((f ≠ AF_INET ∧ f ≠ AF_INET6 ∧ f ≠ AF_UNSPEC) ∨ family_tables ctx f = none) := by
  simp only [family_configured, family_tables, AF_INET, AF_INET6, AF_UNSPEC]
  by_cases h2 : f = 2 <;> by_cases h10 : f = 10 <;> by_cases h0 : f = 0 <;>
    simp_all

/-- C12: when the address family of a request is none of `AF_INET`, `AF_INET6`,
`AF_UNSPEC`, or the bitmap the family selects is `NULL`, the request handler
returns `0` whatever the clock and the store would answer, calls no store
function, and leaves the context (the three bitmaps, the store) and the two
output values as they were. -/
theorem handle_req_rejects_unserved_family (ctx : tas_ctx) (req : tas_client_req)
    (clock : Option Nat) (db_ok : Bool) (rt_table lease_sec_ptr : Nat)
    (hfam : (req.addr_family ≠ AF_INET ∧ req.addr_family ≠ AF_INET6 ∧
        req.addr_family ≠ AF_UNSPEC) ∨ family_tables ctx req.addr_family = none) :
    table_allocator_server_clients_handle_req clock db_ok ctx req rt_table lease_sec_ptr =
      some ⟨0, ctx, rt_table, lease_sec_ptr⟩ ∧
    handle_req_store_calls clock ctx req = [] := by
  have h := (family_configured_false_iff ctx req.addr_family).2 hfam
  constructor
  · unfold table_allocator_server_clients_handle_req
    rw [if_pos h]
  · unfold handle_req_store_calls
    rw [if_pos h]

/-- Witness of C12: a request of family 7, and an `AF_INET6` request to the
pool 100..103, which has no `AF_INET6` bitmap. -/
theorem handle_req_rejects_unserved_family_witness :
    (table_allocator_server_clients_handle_req (some 1) true pool_100_103_B
        ⟨7, "10.0.0.1", "eth0", "a"⟩ 5 6 = some ⟨0, pool_100_103_B, 5, 6⟩ ∧
      handle_req_store_calls (some 1) pool_100_103_B ⟨7, "10.0.0.1", "eth0", "a"⟩ = []) ∧
    (table_allocator_server_clients_handle_req (some 1) true pool_100_103_B
        ⟨AF_INET6, "fe80::1", "eth0", "a"⟩ 5 6 = some ⟨0, pool_100_103_B, 5, 6⟩ ∧
      handle_req_store_calls (some 1) pool_100_103_B ⟨AF_INET6, "fe80::1", "eth0", "a"⟩ = []) :=
  ⟨handle_req_rejects_unserved_family pool_100_103_B ⟨7, "10.0.0.1", "eth0", "a"⟩ (some 1) true
      5 6 (Or.inl (by decide)),
    handle_req_rejects_unserved_family pool_100_103_B ⟨AF_INET6, "fe80::1", "eth0", "a"⟩
      (some 1) true 5 6 (Or.inr (by decide))⟩

/-! ## Release with a failing or a succeeding delete -/

theorem handle_release_found_eq (ctx : tas_ctx) (req : tas_client_req) (db_ok : Bool)
    (hget : table_allocator_sqlite_get_table ctx req ≠ 0) :
    table_allocator_server_clients_handle_release db_ok ctx req =
      if db_ok then
        (release_table (table_allocator_sqlite_remove_table true ctx req).2 req.addr_family
          (table_allocator_sqlite_get_table ctx req)).map (fun c => (1, c))
      else some (0, ctx) := by
  unfold table_allocator_server_clients_handle_release
  simp only [hget, if_false]
  cases db_ok with
  | false => simp [table_allocator_sqlite_remove_table]
  | true =>
    have hrem : (table_allocator_sqlite_remove_table true ctx req).1 ≠ 0 := by
      simp [table_allocator_sqlite_remove_table]
    rw [if_pos hrem]
    cases release_table (table_allocator_sqlite_remove_table true ctx req).2 req.addr_family
      (table_allocator_sqlite_get_table ctx req) <;> rfl

/-- C13, counterexample: with `table_offset = 0` the first request of key A
leaves a lease of key A on the in-range id `0`. For that key the lookup answers
`0`, which the release handler takes for "no lease": with a failing delete it
returns `1`, not `0`, and with a succeeding delete it returns `1` without
deleting the lease and without `release_table`, so the id `0` stays busy. -/
theorem handle_release_skips_lease_on_id_zero :
    table_allocator_server_clients_handle_req (some 1) true pool_0_3 key_A 9 9 =
      some ⟨1, pool_0_3_A, 0, 61⟩ ∧
    pool_0_3_A.db_handle = [lease_of key_A 0 61] ∧
    (lease_of key_A 0 61).key = key_A ∧
    table_allocator_server_clients_handle_release false pool_0_3_A key_A =
      some (1, pool_0_3_A) ∧
    table_allocator_server_clients_handle_release true pool_0_3_A key_A =
      some (1, pool_0_3_A) ∧
    is_table_free pool_0_3_A AF_INET 0 = some 0 := by
  decide

/-- C13, amended: when the store lookup answers the non-zero id `t` for the key
of a release (the key has a lease on `t`, so the delete is attempted): with a failing
delete the handler returns `0` and the whole context, all bitmaps included, is
unchanged; with a succeeding delete the result is that of one `release_table`
for `(family, t)` on the context without the lease, returned with `1`; and in a
well-formed context with the family configured and the bit of `t` inside the
bitmap that call returns, the lease is gone, a busy bit of `t` is free
afterwards and `is_table_free` answers as before for every other id and family. -/
theorem handle_release_delete_outcome (ctx : tas_ctx) (req : tas_client_req) (t : Nat)
    (hget : table_allocator_sqlite_get_table ctx req = t) (ht0 : t ≠ 0) :
    table_allocator_server_clients_handle_release false ctx req = some (0, ctx) ∧
    table_allocator_server_clients_handle_release true ctx req =
      (release_table (table_allocator_sqlite_remove_table true ctx req).2 req.addr_family
        t).map (fun c => (1, c)) ∧
    (ctx.wf → family_tables ctx req.addr_family ≠ none → t < U32 →
      table_index ctx t / 32 < ctx.num_table_elements →
      ∃ ctx', table_allocator_server_clients_handle_release true ctx req = some (1, ctx') ∧
        ctx'.db_handle = ctx.db_handle.filter (fun l => !decide (l.key = req)) ∧
        (is_table_free ctx req.addr_family t = some 0 →
          is_table_free ctx' req.addr_family t = some 1) ∧
        (∀ g id, id < U32 → ¬ (family_slot req.addr_family = family_slot g ∧ id = t) →
          is_table_free ctx' g id = is_table_free ctx g id)) := by
  have hne : table_allocator_sqlite_get_table ctx req ≠ 0 := by rw [hget]; exact ht0
  refine ⟨?_, ?_, ?_⟩
  · rw [handle_release_found_eq ctx req false hne]; rfl
  · rw [handle_release_found_eq ctx req true hne, hget]; rfl
  · intro hwf hcfg htU hidx
    obtain ⟨tb, htb⟩ := Option.ne_none_iff_exists'.1 hcfg
    obtain ⟨hl, -⟩ := wf_family ctx hwf _ tb htb
    have hrel := release_table_eq
      { ctx with db_handle := ctx.db_handle.filter (fun l => !decide (l.key = req)) }
      req.addr_family t tb htb (by rw [hl]; exact hidx)
    refine ⟨set_family_tables
      { ctx with db_handle := ctx.db_handle.filter (fun l => !decide (l.key = req)) }
      req.addr_family (toggle_at tb (table_index ctx t)), ?_, ?_, ?_, ?_⟩
    · rw [handle_release_found_eq ctx req true hne, hget]
      show Option.map _ (release_table
        { ctx with db_handle := ctx.db_handle.filter (fun l => !decide (l.key = req)) }
        req.addr_family t) = _
      rw [hrel]
      rfl
    · rw [set_family_tables_db]
    · intro hbusy
      rw [is_table_free_zero_iff ctx _ _ tb htb hl] at hbusy
      have h : is_table_free (set_family_tables
          { ctx with db_handle := ctx.db_handle.filter (fun l => !decide (l.key = req)) }
          req.addr_family (toggle_at tb (table_index ctx t))) req.addr_family t =
          some (if bit_at tb (table_index ctx t) = true then 0 else 1) :=
        is_table_free_toggle_self
          { ctx with db_handle := ctx.db_handle.filter (fun l => !decide (l.key = req)) }
          req.addr_family t tb hl hidx
      rw [h, hbusy]
      rfl
    · intro g id hid hne'
      exact is_table_free_toggle_other
        { ctx with db_handle := ctx.db_handle.filter (fun l => !decide (l.key = req)) }
        req.addr_family t g id tb htb hl hwf.2.2.2.1 htU hid (fun h => hne' ⟨h.1, h.2⟩)

/-- Witness of the amended C13: key A holds 100 in the full pool 100..103. -/
theorem handle_release_delete_outcome_witness :
    (table_allocator_sqlite_get_table pool_100_103_full key_A = 100 ∧ (100 : Nat) ≠ 0) ∧
    table_allocator_server_clients_handle_release false pool_100_103_full key_A =
      some (0, pool_100_103_full) ∧
    table_allocator_server_clients_handle_release true pool_100_103_full key_A =
      some (1, pool_100_103_BCD) :=
  ⟨⟨by decide, by decide⟩,
    (handle_release_delete_outcome pool_100_103_full key_A 100 (by decide) (by decide)).1,
    by decide⟩

/-! ## The renewal path: pool effect, failed update -/

/-- The pool part of the renewal path: the context after the reconciliation of
the bit of the stored id, before the lease update. -/
theorem renew_reconciled (ctx : tas_ctx) (f id : Nat) (t : List Nat) (hwf : ctx.wf)
    (ht : family_tables ctx f = some t) (hid : id < U32) :
    is_table_free
        (if bit_at t (table_index ctx id) then
          set_family_tables ctx f (toggle_at t (table_index ctx id)) else ctx) f id = some 0 ∧
    (is_table_free ctx f id = some 0 →
      (if bit_at t (table_index ctx id) then
        set_family_tables ctx f (toggle_at t (table_index ctx id)) else ctx) = ctx) ∧
    (∀ g id', id' < U32 → ¬ (family_slot f = family_slot g ∧ id' = id) →
      is_table_free
          (if bit_at t (table_index ctx id) then
            set_family_tables ctx f (toggle_at t (table_index ctx id)) else ctx) g id' =
        is_table_free ctx g id') := by
  obtain ⟨hl, -⟩ := wf_family ctx hwf _ t ht
  cases hb : bit_at t (table_index ctx id) with
  | false =>
    simp only [Bool.false_eq_true, if_false]
    refine ⟨?_, fun _ => trivial, fun _ _ _ _ => trivial⟩
    rw [is_table_free_zero_iff ctx _ _ t ht hl]; exact hb
  | true =>
    simp only [if_true]
    have hlt : table_index ctx id / 32 < ctx.num_table_elements := by
      rw [← hl]; exact bit_at_true_lt t _ hb
    refine ⟨?_, ?_, ?_⟩
    · rw [is_table_free_toggle_self ctx _ _ t hl hlt, hb]; rfl
    · intro hbusy
      rw [is_table_free_zero_iff ctx _ _ t ht hl, hb] at hbusy
      exact absurd hbusy (by decide)
    · intro g id' hid' hne
      exact is_table_free_toggle_other ctx f id g id' t ht hl hwf.2.2.2.1 hid hid' hne

/-- C14, counterexample: after a restart the store holds the lease of key A on
100 while the bit of 100 is still free; the renewal of key A with a failing
lease update returns `0`, and the bitmap word has changed from `0xFFFFFFFF` to
`0xFFFFFFFE`. -/
theorem handle_req_failed_update_changes_pool :
    table_allocator_sqlite_get_table pool_100_103_restarted key_A = 100 ∧
    pool_100_103_restarted.tables_inet = some [0xFFFFFFFF] ∧
    table_allocator_server_clients_handle_req (some 5) false pool_100_103_restarted key_A 0 0 =
      some ⟨0, { pool_100_103_restarted with tables_inet := some [0xFFFFFFFE] }, 0, 0⟩ := by
  decide

/-- C14, amended: in a well-formed context, for a request of a configured family
whose key the store answers with the non-zero 32-bit id `t`, when the lease
update fails the handler returns `0`, leaves the outputs and the store alone,
the bit of `t` is busy afterwards, and `is_table_free` answers as before for
every other id and family; when the bit of `t` was busy before the call the
whole context equals the context before the call. -/
theorem handle_req_failed_update_pool (ctx : tas_ctx) (req : tas_client_req)
    (now rt_table lease_sec_ptr t : Nat) (hwf : ctx.wf)
    (hcfg : family_configured ctx req.addr_family = true)
    (hget : table_allocator_sqlite_get_table ctx req = t) (ht0 : t ≠ 0) (htU : t < U32) :
    ∃ ctx', table_allocator_server_clients_handle_req (some now) false ctx req rt_table
        lease_sec_ptr = some ⟨0, ctx', rt_table, lease_sec_ptr⟩ ∧
      ctx'.db_handle = ctx.db_handle ∧
      is_table_free ctx' req.addr_family t = some 0 ∧
      (is_table_free ctx req.addr_family t = some 0 → ctx' = ctx) ∧
      (∀ g id, id < U32 → ¬ (family_slot req.addr_family = family_slot g ∧ id = t) →
        is_table_free ctx' g id = is_table_free ctx g id) := by
  obtain ⟨tb, htb⟩ := family_configured_some ctx _ hcfg
  obtain ⟨hl, -⟩ := wf_family ctx hwf _ tb htb
  have hne : table_allocator_sqlite_get_table ctx req ≠ 0 := by rw [hget]; exact ht0
  obtain ⟨h1, h2, h3⟩ := renew_reconciled ctx req.addr_family t tb hwf htb htU
  refine ⟨if bit_at tb (table_index ctx t) then
      set_family_tables ctx req.addr_family (toggle_at tb (table_index ctx t)) else ctx,
    ?_, ?_, h1, h2, h3⟩
  · rw [handle_req_renew_eq ctx req now rt_table lease_sec_ptr false tb hcfg htb hl hne, hget]
    simp
  · split
    · exact set_family_tables_db _ _ _
    · rfl

/-- Witness of the amended C14: key B holds 101 and its bit is busy; the failed
renewal leaves the context as it was. -/
theorem handle_req_failed_update_pool_witness :
    (pool_100_103_B.wf ∧ family_configured pool_100_103_B key_B.addr_family = true ∧
      table_allocator_sqlite_get_table pool_100_103_B key_B = 101) ∧
    table_allocator_server_clients_handle_req (some 5) false pool_100_103_B key_B 0 0 =
      some ⟨0, pool_100_103_B, 0, 0⟩ := by
  refine ⟨by decide, ?_⟩
  obtain ⟨ctx', h, -, -, hsame, -⟩ := handle_req_failed_update_pool pool_100_103_B key_B 5 0 0
    101 (by decide) (by decide) (by decide) (by decide) (by decide)
  rw [h, hsame (by decide)]

/-- C17, counterexample: with `table_offset = 0` key A holds a lease on the
in-range id `0`, whose bit is busy. The next request of key A, with the clock
read and every store write succeeding, does not return `0`: the lookup's `0` is
read as "no lease", `allocate_table` runs, the handler returns the id `1`, and
the bit of the id `1` has changed from free to busy. -/
theorem handle_req_reallocates_lease_on_id_zero :
    pool_0_3_A.db_handle = [lease_of key_A 0 61] ∧
    (lease_of key_A 0 61).key = key_A ∧
    is_table_free pool_0_3_A AF_INET 1 = some 1 ∧
    table_allocator_server_clients_handle_req (some 2) true pool_0_3_A key_A 9 9 =
      some ⟨1, { pool_0_3 with
          tables_inet := some [0xFFFFFFFC]
          db_handle := [lease_of key_A 1 62] }, 1, 62⟩ ∧
    is_table_free { pool_0_3 with
        tables_inet := some [0xFFFFFFFC]
        db_handle := [lease_of key_A 1 62] } AF_INET 1 = some 0 := by
  decide

/-- C17, amended: in a well-formed context, for a request of a configured family
whose key the store lookup answers with the non-zero 32-bit id `t`, with the clock
read and the lease update succeeding, the handler returns `1` with `t` behind
`rt_table`; afterwards the bit of `t` is busy, whether it was free or busy
before, and `is_table_free` answers as before the call for every other id and
every other family. -/
theorem handle_req_renewal_pool_effect (ctx : tas_ctx) (req : tas_client_req)
    (now rt_table lease_sec_ptr t : Nat) (hwf : ctx.wf)
    (hcfg : family_configured ctx req.addr_family = true)
    (hget : table_allocator_sqlite_get_table ctx req = t) (ht0 : t ≠ 0) (htU : t < U32) :
    ∃ ctx', table_allocator_server_clients_handle_req (some now) true ctx req rt_table
        lease_sec_ptr = some ⟨1, ctx', t, (now + ctx.table_timeout) % U32⟩ ∧
      is_table_free ctx' req.addr_family t = some 0 ∧
      (∀ g id, id < U32 → ¬ (family_slot req.addr_family = family_slot g ∧ id = t) →
        is_table_free ctx' g id = is_table_free ctx g id) := by
  obtain ⟨tb, htb⟩ := family_configured_some ctx _ hcfg
  obtain ⟨hl, -⟩ := wf_family ctx hwf _ tb htb
  have hne : table_allocator_sqlite_get_table ctx req ≠ 0 := by rw [hget]; exact ht0
  obtain ⟨h1, -, h3⟩ := renew_reconciled ctx req.addr_family t tb hwf htb htU
  refine ⟨(table_allocator_sqlite_update_lease true
      (if bit_at tb (table_index ctx t) then
        set_family_tables ctx req.addr_family (toggle_at tb (table_index ctx t)) else ctx)
      t req.addr_family (now + ctx.table_timeout)).2, ?_, ?_, ?_⟩
  · rw [handle_req_renew_eq ctx req now rt_table lease_sec_ptr true tb hcfg htb hl hne, hget]
    simp
  · rw [is_table_free_update]; exact h1
  · intro g id hid hne'
    rw [is_table_free_update]; exact h3 g id hid hne'

/-- Witness of the amended C17: after the restart the renewal of key A marks 100 busy and
returns 100. -/
theorem handle_req_renewal_pool_effect_witness :
    (pool_100_103_restarted.wf ∧
      family_configured pool_100_103_restarted key_A.addr_family = true ∧
      table_allocator_sqlite_get_table pool_100_103_restarted key_A = 100) ∧
    ∃ ctx', table_allocator_server_clients_handle_req (some 5) true pool_100_103_restarted
        key_A 0 0 = some ⟨1, ctx', 100, (5 + pool_100_103_restarted.table_timeout) % U32⟩ ∧
      is_table_free ctx' key_A.addr_family 100 = some 0 ∧
      (∀ g id, id < U32 → ¬ (family_slot key_A.addr_family = family_slot g ∧ id = 100) →
        is_table_free ctx' g id = is_table_free pool_100_103_restarted g id) :=
  ⟨by decide, handle_req_renewal_pool_effect pool_100_103_restarted key_A 5 0 0 100
    (by decide) (by decide) (by decide) (by decide) (by decide)⟩

/-! ## The expiry of a granted lease -/

theorem set_table_db (ctx ctx' : tas_ctx) (f id : Nat) (h : set_table ctx f id = some ctx') :
    ctx'.db_handle = ctx.db_handle := by
  unfold set_table at h
  simp only [] at h
  split at h
  · injection h with h; rw [← h]
  · exact toggle_bit_db ctx ctx' f _ _ h

/-- C18, counterexample: with the clock at `2^32` seconds and a timeout of 60
the request of key A succeeds, the store receives the expiry `2^32 + 60`, and
the value behind the 32-bit `lease_sec_ptr` is `60`. -/
theorem handle_req_lease_sec_truncated :
    table_allocator_server_clients_handle_req (some 4294967296) true pool_100_103 key_A 0 0 =
      some ⟨1, { pool_100_103 with
          tables_inet := some [0xFFFFFFFE]
          db_handle := [lease_of key_A 100 4294967356] }, 100, 60⟩ ∧
    (60 : Nat) ≠ 4294967296 + pool_100_103.table_timeout := by
  decide

/-- C18, amended: on every successful request handled at clock second `now`,
on the renewal path and on the first-allocation path alike, the store holds for
the key a lease on the granted id whose expiry is `now + table_timeout`, and the
value behind the 32-bit `lease_sec_ptr` is `(now + table_timeout) mod 2^32`,
which is `now + table_timeout` whenever that sum is below `2^32`. -/
theorem handle_req_expiry (ctx : tas_ctx) (req : tas_client_req) (now : Nat) (db_ok : Bool)
    (rt_table lease_sec_ptr : Nat) (r : req_result)
    (h : table_allocator_server_clients_handle_req (some now) db_ok ctx req rt_table
      lease_sec_ptr = some r)
    (hret : r.ret = 1) :
    r.lease_sec = (now + ctx.table_timeout) % U32 ∧
    (now + ctx.table_timeout < U32 → r.lease_sec = now + ctx.table_timeout) ∧
    ∃ l ∈ r.ctx.db_handle, l.key = req ∧ l.rt_table = r.rt_table ∧
      l.lease_expires = now + ctx.table_timeout := by
  have key : r.lease_sec = (now + ctx.table_timeout) % U32 ∧
      ∃ l ∈ r.ctx.db_handle, l.key = req ∧ l.rt_table = r.rt_table ∧
        l.lease_expires = now + ctx.table_timeout := by
    unfold table_allocator_server_clients_handle_req at h
    by_cases hcfg : family_configured ctx req.addr_family = false
    · rw [if_pos hcfg] at h
      injection h with h; subst h
      exact absurd hret Nat.zero_ne_one
    rw [if_neg hcfg] at h
    simp only [] at h
    by_cases hget : table_allocator_sqlite_get_table ctx req = 0
    · rw [if_neg (by simpa using hget)] at h
      cases ha : allocate_table ctx req.addr_family with
      | none => rw [ha] at h; exact Option.noConfusion h
      | some p =>
        obtain ⟨allocated, ctx1⟩ := p
        rw [ha] at h
        simp only [] at h
        by_cases h0 : allocated = 0
        · rw [if_pos h0] at h
          injection h with h; subst h
          exact absurd hret Nat.zero_ne_one
        · rw [if_neg h0] at h
          cases db_ok with
          | false =>
            simp only [table_allocator_sqlite_insert_table, Bool.false_eq_true, if_false,
              if_true] at h
            split at h
            · exact Option.noConfusion h
            · injection h with h; subst h
              exact absurd hret Nat.zero_ne_one
          | true =>
            simp only [table_allocator_sqlite_insert_table, if_true, Nat.one_ne_zero,
              if_false] at h
            injection h with h; subst h
            exact ⟨rfl, _, List.mem_cons_self _ _, rfl, rfl, rfl⟩
    · rw [if_pos hget] at h
      obtain ⟨l0, hl0, hkey, hrt⟩ := get_table_lease ctx req hget
      cases hfree : is_table_free ctx req.addr_family
          (table_allocator_sqlite_get_table ctx req) with
      | none => rw [hfree] at h; exact Option.noConfusion h
      | some free =>
        rw [hfree] at h
        simp only [] at h
        cases hset : (if free ≠ 0 then
            set_table ctx req.addr_family (table_allocator_sqlite_get_table ctx req)
          else some ctx) with
        | none => rw [hset] at h; exact Option.noConfusion h
        | some ctx1 =>
          rw [hset] at h
          simp only [] at h
          have hdb : ctx1.db_handle = ctx.db_handle := by
            split at hset
            · exact set_table_db _ _ _ _ hset
            · injection hset with hset; rw [← hset]
          cases db_ok with
          | false =>
            simp only [table_allocator_sqlite_update_lease, Bool.false_eq_true, if_false,
              if_true] at h
            injection h with h; subst h
            exact absurd hret Nat.zero_ne_one
          | true =>
            simp only [table_allocator_sqlite_update_lease, if_true, Nat.one_ne_zero,
              if_false] at h
            injection h with h; subst h
            refine ⟨rfl, { l0 with lease_expires := now + ctx.table_timeout }, ?_, hkey, hrt,
              rfl⟩
            show _ ∈ ctx1.db_handle.map _
            rw [hdb]
            refine List.mem_map.2 ⟨l0, hl0, ?_⟩
            rw [if_pos ⟨hrt, lease_key_family l0 req hkey⟩]
  refine ⟨key.1, ?_, key.2⟩
  intro hlt
  rw [key.1, Nat.mod_eq_of_lt hlt]

/-- Witness of the amended C18: the renewal of key B at second 5 in the pool
100..103 with the timeout 60. -/
theorem handle_req_expiry_witness :
    table_allocator_server_clients_handle_req (some 5) true pool_100_103_B key_B 0 0 =
      some ⟨1, { pool_100_103_B with db_handle := [lease_of key_B 101 65] }, 101, 65⟩ ∧
    (65 : Nat) = (5 + pool_100_103_B.table_timeout) % U32 ∧
    (5 + pool_100_103_B.table_timeout < U32 → (65 : Nat) = 5 + pool_100_103_B.table_timeout) ∧
    ∃ l ∈ [lease_of key_B 101 65], l.key = key_B ∧ l.rt_table = 101 ∧
      l.lease_expires = 5 + pool_100_103_B.table_timeout :=
  ⟨by decide, handle_req_expiry pool_100_103_B key_B 5 true 0 0
    ⟨1, { pool_100_103_B with db_handle := [lease_of key_B 101 65] }, 101, 65⟩ (by decide) rfl⟩

/-! ## Release and reaping on one bit -/

theorem release_table_word_eq (ctx : tas_ctx) (f id : Nat) (t : List Nat) (w : Nat)
    (ht : family_tables ctx f = some t)
    (hw : t[table_index ctx id >>> 5]? = some w) :
    release_table ctx f id =
      some (set_family_tables ctx f
        (t.set (table_index ctx id >>> 5) (w ^^^ (1 <<< (table_index ctx id &&& 0x1F))))) := by
  unfold release_table toggle_bit
  simp only [ht]
  show (match t[table_index ctx id >>> 5]? with
    | none => none
    | some w => some (set_family_tables ctx f
        (t.set (table_index ctx id >>> 5) (w ^^^ 1 <<< (table_index ctx id &&& 0x1F))))) = _
  rw [hw]

/-- C15: in a well-formed context whose bitmaps cover the range, for a
configured family `f` and an id `table_offset + j`, `j < num_tables`,
`release_table` returns; with `x = id - table_offset`, the bitmap of `f` after
the call is the one before it with word `x >> 5` replaced, that word differs
from the old one exactly in bit `x & 31`, every other word of the bitmap is the
old one, the bitmaps of the other families, the configuration and the store are
unchanged; nothing is assumed on the value of the addressed bit. -/
theorem release_table_touches_single_bit (ctx : tas_ctx) (addr_family j : Nat) (hwf : ctx.wf)
    (hcfg : family_tables ctx addr_family ≠ none)
    (hcov : ctx.num_tables ≤ 32 * ctx.num_table_elements) (hj : j < ctx.num_tables) :
    ∃ ctx' t t' w w',
      release_table ctx addr_family ((ctx.table_offset + j) % U32) = some ctx' ∧
      family_tables ctx addr_family = some t ∧ family_tables ctx' addr_family = some t' ∧
      t'.length = t.length ∧
      t[j >>> 5]? = some w ∧ t'[j >>> 5]? = some w' ∧
      (∀ b, w'.testBit b = if b = j &&& 0x1F then !w.testBit b else w.testBit b) ∧
      (∀ i, i ≠ j >>> 5 → t'[i]? = t[i]?) ∧
      (∀ g, family_slot g ≠ family_slot addr_family →
        family_tables ctx' g = family_tables ctx g) ∧
      ctx'.num_table_elements = ctx.num_table_elements ∧ ctx'.num_tables = ctx.num_tables ∧
      ctx'.table_offset = ctx.table_offset ∧ ctx'.table_timeout = ctx.table_timeout ∧
      ctx'.db_handle = ctx.db_handle := by
  obtain ⟨t, ht⟩ := Option.ne_none_iff_exists'.1 hcfg
  obtain ⟨hl, -⟩ := wf_family ctx hwf addr_family t ht
  have hidx := in_range_index ctx j hwf hj
  have hlt : j >>> 5 < t.length := by
    rw [shr5_eq, hl]; omega
  have hw : t[j >>> 5]? = some t[j >>> 5] := List.getElem?_eq_getElem hlt
  have hrel := release_table_word_eq ctx addr_family ((ctx.table_offset + j) % U32) t
    t[j >>> 5] ht (by rw [hidx]; exact hw)
  rw [hidx] at hrel
  refine ⟨_, t, _, t[j >>> 5], _, hrel, ht, family_tables_set_self _ _ _, List.length_set _ _ _,
    hw, List.getElem?_set_self hlt, ?_, ?_, ?_, by simp, by simp, by simp, by simp, by simp⟩
  · intro b
    rw [testBit_toggle]
    by_cases hb : b = j &&& 0x1F
    · rw [if_pos hb, if_pos hb.symm]
    · rw [if_neg hb, if_neg (fun h => hb h.symm)]
  · intro i hi
    exact List.getElem?_set_ne (fun h => hi h.symm)
  · intro g hg
    rw [family_tables_set, if_neg (fun h => hg h.symm)]

/-- Witness of C15: id 101 of the pool 100..103 in which key B holds 101. -/
theorem release_table_touches_single_bit_witness :
    (pool_100_103_B.wf ∧ family_tables pool_100_103_B AF_INET ≠ none ∧
      pool_100_103_B.num_tables ≤ 32 * pool_100_103_B.num_table_elements ∧
      1 < pool_100_103_B.num_tables) ∧
    ∃ ctx' t t' w w',
      release_table pool_100_103_B AF_INET ((pool_100_103_B.table_offset + 1) % U32) =
        some ctx' ∧
      family_tables pool_100_103_B AF_INET = some t ∧ family_tables ctx' AF_INET = some t' ∧
      t'.length = t.length ∧
      t[1 >>> 5]? = some w ∧ t'[1 >>> 5]? = some w' ∧
      (∀ b, w'.testBit b = if b = 1 &&& 0x1F then !w.testBit b else w.testBit b) ∧
      (∀ i, i ≠ 1 >>> 5 → t'[i]? = t[i]?) ∧
      (∀ g, family_slot g ≠ family_slot AF_INET →
        family_tables ctx' g = family_tables pool_100_103_B g) ∧
      ctx'.num_table_elements = pool_100_103_B.num_table_elements ∧
      ctx'.num_tables = pool_100_103_B.num_tables ∧
      ctx'.table_offset = pool_100_103_B.table_offset ∧
      ctx'.table_timeout = pool_100_103_B.table_timeout ∧
      ctx'.db_handle = pool_100_103_B.db_handle :=
  ⟨by decide, release_table_touches_single_bit pool_100_103_B AF_INET 1 (by decide) (by decide)
    (by decide) (by decide)⟩

/-- C16: in a well-formed context whose bitmaps cover the range, for a
configured family and an id `table_offset + j`, `j < num_tables`,
`release_dead_lease` returns, the bit of the id is free afterwards,
`is_table_free` answers as before for every other id and family, the context is
exactly unchanged when the bit was already free, and a second
`release_dead_lease` changes nothing. -/
theorem release_dead_lease_frees_once (ctx : tas_ctx) (addr_family j : Nat) (hwf : ctx.wf)
    (hcfg : family_tables ctx addr_family ≠ none)
    (hcov : ctx.num_tables ≤ 32 * ctx.num_table_elements) (hj : j < ctx.num_tables) :
    ∃ ctx', release_dead_lease ctx addr_family ((ctx.table_offset + j) % U32) = some ctx' ∧
      is_table_free ctx' addr_family ((ctx.table_offset + j) % U32) = some 1 ∧
      (∀ g id, id < U32 →
        ¬ (family_slot addr_family = family_slot g ∧ id = (ctx.table_offset + j) % U32) →
        is_table_free ctx' g id = is_table_free ctx g id) ∧
      (is_table_free ctx addr_family ((ctx.table_offset + j) % U32) = some 1 → ctx' = ctx) ∧
      release_dead_lease ctx' addr_family ((ctx.table_offset + j) % U32) = some ctx' := by
  obtain ⟨t, ht⟩ := Option.ne_none_iff_exists'.1 hcfg
  obtain ⟨hl, -⟩ := wf_family ctx hwf addr_family t ht
  have hidx := in_range_index ctx j hwf hj
  have hidU : (ctx.table_offset + j) % U32 < U32 := Nat.mod_lt _ (by decide)
  have hlt : table_index ctx ((ctx.table_offset + j) % U32) / 32 < ctx.num_table_elements := by
    rw [hidx]; omega
  have hfree_eq := is_table_free_eq ctx addr_family ((ctx.table_offset + j) % U32) t ht hl
  have hnoop : ∀ c : tas_ctx,
      is_table_free c addr_family ((ctx.table_offset + j) % U32) = some 1 →
      release_dead_lease c addr_family ((ctx.table_offset + j) % U32) = some c := by
    intro c hc
    unfold release_dead_lease
    rw [hc]
    simp
  cases hb : bit_at t (table_index ctx ((ctx.table_offset + j) % U32)) with
  | true =>
    rw [hb] at hfree_eq
    exact ⟨ctx, hnoop ctx hfree_eq, hfree_eq, fun _ _ _ _ => rfl, fun _ => rfl,
      hnoop ctx hfree_eq⟩
  | false =>
    rw [hb] at hfree_eq
    have hrel := release_table_eq ctx addr_family ((ctx.table_offset + j) % U32) t ht
      (by rw [hl]; exact hlt)
    have hafter : is_table_free
        (set_family_tables ctx addr_family
          (toggle_at t (table_index ctx ((ctx.table_offset + j) % U32))))
        addr_family ((ctx.table_offset + j) % U32) = some 1 := by
      rw [is_table_free_toggle_self ctx _ _ t hl hlt, hb]; rfl
    refine ⟨_, ?_, hafter, ?_, ?_, hnoop _ hafter⟩
    · unfold release_dead_lease
      rw [hfree_eq]
      simp only [Bool.false_eq_true, if_false, if_true]
      exact hrel
    · intro g id hid hne
      exact is_table_free_toggle_other ctx _ _ g id t ht hl hwf.2.2.2.1 hidU hid hne
    · intro h1
      rw [hfree_eq] at h1
      exact absurd h1 (by decide)

/-- Witness of C16: the reaper's callback for the lease of key C on table 100
leaves 100 free and 101 busy. -/
theorem release_dead_lease_frees_once_witness :
    (pool_100_103_CB.wf ∧ family_tables pool_100_103_CB AF_INET ≠ none ∧
      pool_100_103_CB.num_tables ≤ 32 * pool_100_103_CB.num_table_elements ∧
      0 < pool_100_103_CB.num_tables) ∧
    release_dead_lease pool_100_103_CB AF_INET 100 =
      some { pool_100_103_CB with tables_inet := some [0xFFFFFFFD] } ∧
    table_allocator_server_clients_delete_dead_leases (some 63)
      { pool_100_103_CB with db_handle := [lease_of key_C 100 62, lease_of key_B 101 90] } =
      some pool_100_103_B90 ∧
    ∃ ctx', release_dead_lease pool_100_103_CB AF_INET
        ((pool_100_103_CB.table_offset + 0) % U32) = some ctx' ∧
      is_table_free ctx' AF_INET ((pool_100_103_CB.table_offset + 0) % U32) = some 1 ∧
      (∀ g id, id < U32 →
        ¬ (family_slot AF_INET = family_slot g ∧
          id = (pool_100_103_CB.table_offset + 0) % U32) →
        is_table_free ctx' g id = is_table_free pool_100_103_CB g id) ∧
      (is_table_free pool_100_103_CB AF_INET ((pool_100_103_CB.table_offset + 0) % U32) =
        some 1 → ctx' = pool_100_103_CB) ∧
      release_dead_lease ctx' AF_INET ((pool_100_103_CB.table_offset + 0) % U32) = some ctx' :=
  ⟨by decide, by decide, by decide,
    release_dead_lease_frees_once pool_100_103_CB AF_INET 0 (by decide) (by decide)
      (by decide) (by decide)⟩

/-- C19, the code at the failing input: the pool 100..103 has one bitmap word;
the store still holds an expired lease on table 132, whose word index is `1`.
Start-up recovery ignores the id, `is_table_free` answers `0` for it because of
its bounds check, so `release_dead_lease` goes on to `release_table`, which
accesses word `1` of a one-word bitmap: the call, and the reaping that makes it,
has no defined result. -/
theorem release_dead_lease_out_of_bounds :
    pool_100_103_old_lease.num_table_elements = 1 ∧
    table_index pool_100_103_old_lease 132 >>> 5 = 1 ∧
    recover_tables pool_100_103 [lease_of key_A 132 61] = some pool_100_103 ∧
    is_table_free pool_100_103_old_lease AF_INET 132 = some 0 ∧
    release_table pool_100_103_old_lease AF_INET 132 = none ∧
    release_dead_lease pool_100_103_old_lease AF_INET 132 = none ∧
    table_allocator_server_clients_delete_dead_leases (some 61) pool_100_103_old_lease =
      none := by
  decide

end TableAllocator
